import Mathlib

/-!
# BuildBuddy: blob store and build-event ingestion

A shallow embedding of

* `server/backends/blobstore.go` (`compress`, `decompress`, `DiskBlobStore`,
  `GCSBlobStore`), and
* `server/build_event_protocol/build_event_server.go`
  (`PublishBuildToolEventStream`),

followed by theorems about them.

Conventions of the embedding.

* A Go `error` value is `Option error`: `none` is `nil`.
* A Go `[]byte` is a `List UInt8`; the `nil` slice and the empty slice are both `[]`.
* A Go `string` is a Lean `String`.
* A Go pointer that may be `nil` is an `Option`.
* `context.Context` arguments and `log.Printf` calls are dropped.
-/

set_option autoImplicit false

/-! ## Go values -/

/-- Go `error` values that are not `nil`. The package-level sentinels the code
compares against with `==` are separate constructors; every other error value
is `other`. -/
inductive error where
  | io_EOF
  | io_ErrUnexpectedEOF
  | gzip_ErrHeader
  | os_ErrNotExist
  | storage_ErrObjectNotExist
  | other (msg : String)
deriving DecidableEq, Repr

/-- `io.EOF`. -/
def io.EOF : error := error.io_EOF
/-- `io.ErrUnexpectedEOF`. -/
def io.ErrUnexpectedEOF : error := error.io_ErrUnexpectedEOF
/-- `gzip.ErrHeader`. -/
def gzip.ErrHeader : error := error.gzip_ErrHeader
/-- `os.ErrNotExist`. -/
def os.ErrNotExist : error := error.os_ErrNotExist
/-- `storage.ErrObjectNotExist`. -/
def storage.ErrObjectNotExist : error := error.storage_ErrObjectNotExist
/-- `fmt.Errorf`, after formatting. -/
def fmt.Errorf (msg : String) : error := error.other msg

/-- Go `[]byte`. -/
abbrev Bytes := List UInt8

/-! ## Standard library used by `blobstore.go` -/

/-- `strings.Contains` on the character lists: `substr` occurs at some position of `s`. -/
def strings.containsChars (substr : List Char) : List Char → Bool
  | [] => substr.isEmpty
  | c :: cs => substr.isPrefixOf (c :: cs) || strings.containsChars substr cs

/-- `strings.Contains(s, substr)`. -/
def strings.Contains (s substr : String) : Bool :=
  strings.containsChars substr.toList s.toList

/-- `io.ReadFull(r, buf[:n])` on a reader holding the bytes `r`: the bytes read,
the bytes left in the reader, and the error. Reading nothing at all is
`io.EOF`; reading some but fewer than `n` bytes is `io.ErrUnexpectedEOF`. -/
def io.ReadFull (r : Bytes) (n : Nat) : Bytes × Bytes × Option error :=
  if n ≤ r.length then (r.take n, r.drop n, none)
  else if r.length = 0 then ([], [], some io.EOF)
  else (r, [], some io.ErrUnexpectedEOF)

/-- `gzipID1`. -/
def gzip.gzipID1 : UInt8 := 0x1f
/-- `gzipID2`. -/
def gzip.gzipID2 : UInt8 := 0x8b
/-- `gzipDeflate`. -/
def gzip.gzipDeflate : UInt8 := 8

/-- The parts of `compress/gzip` whose internals (DEFLATE coding, checksums,
optional header fields) are not embedded. `ω` is a `*gzip.Writer` that has
been written to, `ρ` a `*gzip.Reader`.

* `Write b`: `zr := gzip.NewWriter(&buf); zr.Write(b)`.
* `CloseWriter w`: `zr.Close()`, giving the content of `buf` afterwards.
* `readHeaderRest hdr rest`: what `Reader.readHeader` does after it has read
  the ten fixed header bytes `hdr` and accepted the magic numbers, `rest` being
  the bytes that follow.
* `ReadAll r`: `ioutil.ReadAll(zr)`.
* `Close r`: `zr.Close()` on a reader. -/
structure gzip.Codec (ω ρ : Type) where
  Write : Bytes → Except error ω
  CloseWriter : ω → Except error Bytes
  readHeaderRest : Bytes → Bytes → Except error ρ
  ReadAll : ρ → Except error Bytes
  Close : ρ → Option error

/-- `gzip.NewReader(&buf)` with `buf` holding `b`: `Reader.readHeader` reads
ten bytes with `io.ReadFull` and returns its error if there are fewer; it
returns `ErrHeader` unless they start with `1f 8b 08`. -/
def gzip.NewReader {ω ρ : Type} (gz : gzip.Codec ω ρ) (b : Bytes) : Except error ρ :=
  match io.ReadFull b 10 with
  | (_, _, some err) => Except.error err
  | (hdr, rest, none) =>
    if hdr.getD 0 0 ≠ gzip.gzipID1 ∨ hdr.getD 1 0 ≠ gzip.gzipID2 ∨ hdr.getD 2 0 ≠ gzip.gzipDeflate then
      Except.error gzip.ErrHeader
    else gz.readHeaderRest hdr rest

/-- `filepath`: `Join` is the operating system's path join (it also cleans the
result), taken as given. -/
structure filepath where
  Join : String → String → String

/-! ## `blobstore.go` -/

/-- `decompress(in, err)`. -/
def decompress {ω ρ : Type} (gz : gzip.Codec ω ρ) (inp : Bytes) (err : Option error) :
    Bytes × Option error :=
  match err with
  | some e => (inp, some e)
  | none =>
    -- buf.Write(in) on a bytes.Buffer returns a nil error
    match gzip.NewReader gz inp with
    | Except.error e =>
      if e = gzip.ErrHeader then (inp, none)
      else ([], some e)
    | Except.ok zr =>
      match gz.ReadAll zr with
      | Except.error e => ([], some e)
      | Except.ok rsp =>
        match gz.Close zr with
        | some e => ([], some e)
        | none => (rsp, none)

/-- `compress(in)`. -/
def compress {ω ρ : Type} (gz : gzip.Codec ω ρ) (inp : Bytes) : Bytes × Option error :=
  match gz.Write inp with
  | Except.error e => ([], some e)
  | Except.ok zr =>
    match gz.CloseWriter zr with
    | Except.error e => ([], some e)
    | Except.ok buf => (buf, none)  -- ioutil.ReadAll(&buf)

/-- A call into `server/util/disk`. -/
inductive DiskCall where
  | WriteFile (fullPath : String) (data : Bytes)
  | ReadFile (fullPath : String)
  | DeleteFile (fullPath : String)
  | FileExists (fullPath : String)
  | FileReader (fullPath : String) (offset length : Int)
  | FileWriter (fullPath : String)
deriving DecidableEq, Repr

/-- The package `server/util/disk`, which `blobstore.go` imports: its functions
act on a file system state `σ`. `R` is an `io.Reader`, `W` an
`io.WriteCloser`. -/
structure disk (σ R W : Type) where
  WriteFile : σ → String → Bytes → σ × Int × Option error
  ReadFile : σ → String → σ × Bytes × Option error
  DeleteFile : σ → String → σ × Option error
  FileExists : σ → String → σ × Bool × Option error
  FileReader : σ → String → Int → Int → σ × Option R × Option error
  FileWriter : σ → String → σ × Option W × Option error

/-- The outcome of one blob store operation on the disk backend: the values
returned, the file system afterwards, and the calls made into `disk`. -/
structure Ran (σ α : Type) where
  ret : α
  fs : σ
  calls : List DiskCall

/-- `DiskBlobStore`. -/
structure DiskBlobStore where
  rootDir : String

/-- `NewDiskBlobStore`. -/
def NewDiskBlobStore (rootDir : String) : DiskBlobStore := { rootDir := rootDir }

namespace DiskBlobStore

/-- `(*DiskBlobStore).blobPath`. -/
def blobPath (fp : filepath) (d : DiskBlobStore) (blobName : String) : String × Option error :=
  if strings.Contains blobName ".." then
    ("", some (fmt.Errorf ("blobName (" ++ blobName ++ ") must not contain ../")))
  else (fp.Join d.rootDir blobName, none)

variable {σ R W ω ρ : Type}

/-- `(*DiskBlobStore).WriteBlob`. -/
def WriteBlob (fp : filepath) (dk : disk σ R W) (gz : gzip.Codec ω ρ) (d : DiskBlobStore)
    (s : σ) (blobName : String) (data : Bytes) : Ran σ (Int × Option error) :=
  match d.blobPath fp blobName with
  | (_, some err) => ⟨(0, some err), s, []⟩
  | (fullPath, none) =>
    match compress gz data with
    | (_, some err) => ⟨(0, some err), s, []⟩
    | (compressedData, none) =>
      let r := dk.WriteFile s fullPath compressedData
      ⟨r.2, r.1, [DiskCall.WriteFile fullPath compressedData]⟩

/-- `(*DiskBlobStore).ReadBlob`. -/
def ReadBlob (fp : filepath) (dk : disk σ R W) (gz : gzip.Codec ω ρ) (d : DiskBlobStore)
    (s : σ) (blobName : String) : Ran σ (Bytes × Option error) :=
  match d.blobPath fp blobName with
  | (_, some err) => ⟨([], some err), s, []⟩
  | (fullPath, none) =>
    let r := dk.ReadFile s fullPath
    ⟨decompress gz r.2.1 r.2.2, r.1, [DiskCall.ReadFile fullPath]⟩

/-- `(*DiskBlobStore).DeleteBlob`. -/
def DeleteBlob (fp : filepath) (dk : disk σ R W) (d : DiskBlobStore)
    (s : σ) (blobName : String) : Ran σ (Option error) :=
  match d.blobPath fp blobName with
  | (_, some err) => ⟨some err, s, []⟩
  | (fullPath, none) =>
    let r := dk.DeleteFile s fullPath
    ⟨r.2, r.1, [DiskCall.DeleteFile fullPath]⟩

/-- `(*DiskBlobStore).BlobExists`. -/
def BlobExists (fp : filepath) (dk : disk σ R W) (d : DiskBlobStore)
    (s : σ) (blobName : String) : Ran σ (Bool × Option error) :=
  match d.blobPath fp blobName with
  | (_, some err) => ⟨(false, some err), s, []⟩
  | (fullPath, none) =>
    let r := dk.FileExists s fullPath
    ⟨r.2, r.1, [DiskCall.FileExists fullPath]⟩

/-- `(*DiskBlobStore).BlobReader`. -/
def BlobReader (fp : filepath) (dk : disk σ R W) (d : DiskBlobStore)
    (s : σ) (blobName : String) (offset length : Int) : Ran σ (Option R × Option error) :=
  match d.blobPath fp blobName with
  | (_, some err) => ⟨(none, some err), s, []⟩
  | (fullPath, none) =>
    let r := dk.FileReader s fullPath offset length
    ⟨r.2, r.1, [DiskCall.FileReader fullPath offset length]⟩

/-- `(*DiskBlobStore).BlobWriter`. -/
def BlobWriter (fp : filepath) (dk : disk σ R W) (d : DiskBlobStore)
    (s : σ) (blobName : String) : Ran σ (Option W × Option error) :=
  match d.blobPath fp blobName with
  | (_, some err) => ⟨(none, some err), s, []⟩
  | (fullPath, none) =>
    let r := dk.FileWriter s fullPath
    ⟨r.2, r.1, [DiskCall.FileWriter fullPath]⟩

end DiskBlobStore

/-- `g.bucketHandle.Object(blobName)`: the results the object store gives for
one object. `R` is a `*storage.Reader`, `W` a `*storage.Writer`. -/
structure storage.ObjectHandle (R W : Type) where
  NewReader : Except error R
  NewWriter : W
  Delete : Option error
  Attrs : Option error

/-- `GCSBlobStore`: `Object` is `g.bucketHandle.Object`, `ReadAll` is
`ioutil.ReadAll` on a `*storage.Reader`. -/
structure GCSBlobStore (R W : Type) where
  Object : String → storage.ObjectHandle R W
  ReadAll : R → Bytes × Option error

namespace GCSBlobStore

variable {R W ω ρ : Type}

/-- `(*GCSBlobStore).ReadBlob`. -/
def ReadBlob (gz : gzip.Codec ω ρ) (g : GCSBlobStore R W) (blobName : String) :
    Bytes × Option error :=
  match (g.Object blobName).NewReader with
  | Except.error err =>
    if err = storage.ErrObjectNotExist then ([], some os.ErrNotExist)
    else ([], some err)
  | Except.ok reader =>
    let r := g.ReadAll reader
    decompress gz r.1 r.2

/-- `(*GCSBlobStore).DeleteBlob`. -/
def DeleteBlob (g : GCSBlobStore R W) (blobName : String) : Option error :=
  (g.Object blobName).Delete

/-- `(*GCSBlobStore).BlobExists`. -/
def BlobExists (g : GCSBlobStore R W) (blobName : String) : Bool × Option error :=
  match (g.Object blobName).Attrs with
  | some err =>
    if err = storage.ErrObjectNotExist then (false, none)
    else (false, some err)
  | none => (true, none)

/-- `(*GCSBlobStore).BlobReader`. -/
def BlobReader (g : GCSBlobStore R W) (blobName : String) (_offset _length : Int) :
    Option R × Option error :=
  match (g.Object blobName).NewReader with
  | Except.error err =>
    if err = storage.ErrObjectNotExist then (none, some os.ErrNotExist)
    else (none, some err)
  | Except.ok reader => (some reader, none)

/-- `(*GCSBlobStore).BlobWriter`. -/
def BlobWriter (g : GCSBlobStore R W) (blobName : String) : Option W × Option error :=
  (some (g.Object blobName).NewWriter, none)

end GCSBlobStore

/-! ## Messages of `build_event_server.go` -/

/-- `bepb.StreamId`. -/
structure StreamId where
  BuildId : String
  InvocationId : String
  Component : Nat
deriving DecidableEq, Repr

/-- `bepb.OrderedBuildEvent`: `StreamId` is a pointer, `SequenceNumber` an
`int64`, `Event` the payload. -/
structure OrderedBuildEvent where
  StreamId : Option StreamId
  SequenceNumber : Int
  Event : Bytes
deriving DecidableEq, Repr

/-- `pepb.PublishBuildToolEventStreamRequest`: `OrderedBuildEvent` is a pointer. -/
structure PublishBuildToolEventStreamRequest where
  OrderedBuildEvent : Option OrderedBuildEvent
deriving DecidableEq, Repr

/-- `pepb.PublishBuildToolEventStreamResponse`. -/
structure PublishBuildToolEventStreamResponse where
  StreamId : Option StreamId
  SequenceNumber : Int
deriving DecidableEq, Repr

/-! ## Collaborators of `PublishBuildToolEventStream` -/

/-- A forwarding stream
(`pepb.PublishBuildEvent_PublishBuildToolEventStreamClient`): the errors its
successive `Send` calls return (`nil` once the list is used up) and the error
`CloseSend` returns. -/
structure ForwardingStream where
  sendResults : List (Option error)
  closeResult : Option error
deriving DecidableEq, Repr

/-- `stream.Send(in)` on a forwarding stream: the error, and the stream afterwards. -/
def ForwardingStream.Send (st : ForwardingStream) (_inp : PublishBuildToolEventStreamRequest) :
    Option error × ForwardingStream :=
  (st.sendResults.headD none, { st with sendResults := st.sendResults.tail })

/-- A proxy client (`pepb.PublishBuildEventClient`): what
`client.PublishBuildToolEventStream(ctx, opts)` returns. -/
structure ProxyClient where
  PublishBuildToolEventStream : Except error ForwardingStream

/-- The server stream (`pepb.PublishBuildEvent_PublishBuildToolEventStreamServer`)
as seen by `Recv`: the requests the client sends, then the error `Recv` returns
(`io.EOF` when the client half-closes). -/
structure ServerStream where
  incoming : List PublishBuildToolEventStreamRequest
  closing : error

/-- `BuildEventProtocolServer`, with what it reaches through `s.env`:
the proxy clients, and the package `build_event_handler` (`OpenChannel`, and
`HandleEvent` on a channel in state `χ`). -/
structure BuildEventProtocolServer (χ : Type) where
  GetBuildEventProxyClients : List ProxyClient
  OpenChannel : String → χ
  HandleEvent : χ → PublishBuildToolEventStreamRequest → χ × Option error

/-- What `PublishBuildToolEventStream` does to the outside, in order. Proxy
clients and their forwarding streams are named by their position in
`GetBuildEventProxyClients`. -/
inductive Effect where
  | Connect (client : Nat) (err : Option error)
  | Recv (inp : Option PublishBuildToolEventStreamRequest) (err : Option error)
  | OpenChannel (invocationId : String)
  | HandleEvent (inp : PublishBuildToolEventStreamRequest) (err : Option error)
  | ForwardSend (client : Nat) (inp : PublishBuildToolEventStreamRequest) (err : Option error)
  | Send (rsp : PublishBuildToolEventStreamResponse)
  | CloseSend (client : Nat) (err : Option error)
deriving DecidableEq, Repr

/-- How a call of the handler ends: it returns an `error` (`none` is `nil`),
or it panics on a nil pointer. -/
inductive Outcome where
  | returned (err : Option error)
  | panicked
deriving DecidableEq, Repr

/-! ## `build_event_server.go` -/

/-- The local variables of `PublishBuildToolEventStream` that the receive loop updates. -/
structure Locals (χ : Type) where
  acks : List Int
  streamID : Option StreamId
  channel : Option χ
  forwardingStreams : List (Nat × ForwardingStream)

/-- How one pass through the body of the receive loop ends. -/
inductive Step (χ : Type) where
  | next (l : Locals χ)
  | returned (err : error)
  | panicked

/-- How the receive loop ends. -/
inductive LoopExit (χ : Type) where
  | broke (l : Locals χ)
  | returned (err : error)
  | panicked

/-- Lines 59-68: one forwarding stream per proxy client that connects. -/
def connectProxies : List ProxyClient → Nat → List (Nat × ForwardingStream) × List Effect
  | [], _ => ([], [])
  | client :: clients, i =>
    let r := connectProxies clients (i + 1)
    match client.PublishBuildToolEventStream with
    | Except.error err => (r.1, Effect.Connect i (some err) :: r.2)
    | Except.ok stream => ((i, stream) :: r.1, Effect.Connect i none :: r.2)

/-- Lines 87-90: `stream.Send(in)` on every forwarding stream, errors ignored. -/
def forwardAll (inp : PublishBuildToolEventStreamRequest) :
    List (Nat × ForwardingStream) → List (Nat × ForwardingStream) × List Effect
  | [] => ([], [])
  | (i, stream) :: rest =>
    let sent := stream.Send inp
    let r := forwardAll inp rest
    ((i, sent.2) :: r.1, Effect.ForwardSend i inp sent.1 :: r.2)

/-- Lines 78-81: the stream id and the channel after the `if streamID == nil`
block, with the actions taken; `none` when a nil pointer is dereferenced. -/
def openOnFirst {χ : Type} (s : BuildEventProtocolServer χ) (l : Locals χ)
    (inp : PublishBuildToolEventStreamRequest) : Option (StreamId × χ × List Effect) :=
  match l.streamID with
  | none =>
    match inp.OrderedBuildEvent with
    | none => none
    | some obe =>
      match obe.StreamId with
      | none => none
      | some streamID =>
        some (streamID, s.OpenChannel streamID.InvocationId, [Effect.OpenChannel streamID.InvocationId])
  | some streamID =>
    match l.channel with
    | none => none
    | some channel => some (streamID, channel, [])

/-- Lines 78-92: the body of the receive loop after `Recv` has returned `inp`. -/
def loopBody {χ : Type} (s : BuildEventProtocolServer χ) (l : Locals χ)
    (inp : PublishBuildToolEventStreamRequest) : Step χ × List Effect :=
  match openOnFirst s l inp with
  | none => (Step.panicked, [])
  | some (streamID, channel, opened) =>
    match s.HandleEvent channel inp with
    | (_, some err) => (Step.returned err, opened ++ [Effect.HandleEvent inp (some err)])
    | (channel, none) =>
      let fwd := forwardAll inp l.forwardingStreams
      match inp.OrderedBuildEvent with
      | none => (Step.panicked, opened ++ Effect.HandleEvent inp none :: fwd.2)
      | some obe =>
        (Step.next
          { acks := l.acks ++ [obe.SequenceNumber]
            streamID := some streamID
            channel := some channel
            forwardingStreams := fwd.1 },
         opened ++ Effect.HandleEvent inp none :: fwd.2)

/-- Lines 70-93: the receive loop, on the requests still to come. -/
def recvLoop {χ : Type} (s : BuildEventProtocolServer χ) (closing : error) :
    List PublishBuildToolEventStreamRequest → Locals χ → LoopExit χ × List Effect
  | [], l =>
    if closing = io.EOF then (LoopExit.broke l, [Effect.Recv none (some closing)])
    else (LoopExit.returned closing, [Effect.Recv none (some closing)])
  | inp :: rest, l =>
    match loopBody s l inp with
    | (Step.panicked, tr) => (LoopExit.panicked, Effect.Recv (some inp) none :: tr)
    | (Step.returned err, tr) => (LoopExit.returned err, Effect.Recv (some inp) none :: tr)
    | (Step.next l', tr) =>
      let r := recvLoop s closing rest l'
      (r.1, Effect.Recv (some inp) none :: tr ++ r.2)

/-- Lines 100-105: `true` when every `ack` equals its index plus one, the
index of the first element being `i`. -/
def acksInOrder : List Int → Nat → Bool
  | [], _ => true
  | ack :: rest, i => if ack ≠ (i : Int) + 1 then false else acksInOrder rest (i + 1)

/-- `(*BuildEventProtocolServer).PublishBuildToolEventStream`: how the call
ends, and its actions in order. The deferred `CloseSend` calls run last, in
reverse order of the `defer` statements, on return and on panic alike.
`int` is the 64-bit `int`, so the conversions between `int64` and `int` change
nothing. `sort.Sort(sort.IntSlice(acks))` puts the acks in ascending order, as
`List.insertionSort` does. -/
def BuildEventProtocolServer.PublishBuildToolEventStream {χ : Type}
    (s : BuildEventProtocolServer χ) (stream : ServerStream) : Outcome × List Effect :=
  let conn := connectProxies s.GetBuildEventProxyClients 0
  let deferred := conn.1.reverse.map (fun p => Effect.CloseSend p.1 p.2.closeResult)
  let l : Locals χ := { acks := [], streamID := none, channel := none, forwardingStreams := conn.1 }
  match recvLoop s stream.closing stream.incoming l with
  | (LoopExit.panicked, tr) => (Outcome.panicked, conn.2 ++ tr ++ deferred)
  | (LoopExit.returned err, tr) => (Outcome.returned (some err), conn.2 ++ tr ++ deferred)
  | (LoopExit.broke l, tr) =>
    let acks := l.acks.insertionSort (· ≤ ·)
    if acksInOrder acks 0 = false then
      (Outcome.returned (some io.EOF), conn.2 ++ tr ++ deferred)
    else
      (Outcome.returned none,
        conn.2 ++ tr
          ++ acks.map (fun ack => Effect.Send { StreamId := l.streamID, SequenceNumber := ack })
          ++ deferred)

/-! ## Reference instances of the collaborators of `blobstore.go` -/

/-- One step of the CRC-32 of RFC 1952 on the low bit of `c`. -/
def crc32Bit (c : Nat) : Nat :=
  if c % 2 = 1 then (c >>> 1) ^^^ 0xEDB88320 else c >>> 1

/-- CRC-32 of RFC 1952, one byte. -/
def crc32Update (crc : Nat) (b : UInt8) : Nat :=
  crc32Bit (crc32Bit (crc32Bit (crc32Bit (crc32Bit (crc32Bit (crc32Bit (crc32Bit
    (crc ^^^ b.toNat))))))))

/-- CRC-32 of RFC 1952. -/
def crc32 (data : Bytes) : Nat :=
  (data.foldl crc32Update 0xFFFFFFFF) ^^^ 0xFFFFFFFF

/-- Little-endian bytes of a 16-bit number. -/
def le16 (n : Nat) : Bytes := [UInt8.ofNat (n % 256), UInt8.ofNat (n / 256 % 256)]

/-- Little-endian bytes of a 32-bit number. -/
def le32 (n : Nat) : Bytes :=
  [UInt8.ofNat (n % 256), UInt8.ofNat (n / 256 % 256), UInt8.ofNat (n / 65536 % 256),
   UInt8.ofNat (n / 16777216 % 256)]

/-- A gzip member holding `data` in one stored DEFLATE block (RFC 1951, 3.2.4):
header, block, CRC-32 and length. -/
def storedMember (data : Bytes) : Bytes :=
  [0x1f, 0x8b, 8, 0, 0, 0, 0, 0, 0, 0xff]
    ++ [1] ++ le16 data.length ++ le16 (65535 - data.length)
    ++ data ++ le32 (crc32 data) ++ le32 data.length

/-- Reading the one stored block of `storedMember` back, with the checks of the trailer. -/
def readStored (rest : Bytes) : Except error Bytes :=
  match rest with
  | bfinal :: l0 :: l1 :: n0 :: n1 :: body =>
    let len := l0.toNat + 256 * l1.toNat
    let nlen := n0.toNat + 256 * n1.toNat
    if bfinal ≠ 1 ∨ len + nlen ≠ 65535 then Except.error (error.other "flate: corrupt input")
    else if body.length < len + 8 then Except.error io.ErrUnexpectedEOF
    else
      let data := body.take len
      if (body.drop len).take 4 ≠ le32 (crc32 data) ∨ (body.drop (len + 4)).take 4 ≠ le32 len then
        Except.error (error.other "gzip: invalid checksum")
      else Except.ok data
  | _ => Except.error io.ErrUnexpectedEOF

/-- A gzip codec that writes what it is given as one stored block, and reads
such members back; it refuses data that does not fit one block and header
flags. An instance of `gzip.Codec` on which the round trip can be computed. -/
def storedCodec : gzip.Codec Bytes Bytes where
  Write data :=
    if data.length < 65536 then Except.ok data
    else Except.error (error.other "stored block too long")
  CloseWriter data := Except.ok (storedMember data)
  readHeaderRest hdr rest :=
    if hdr.getD 3 0 ≠ 0 then Except.error (error.other "header flags") else Except.ok rest
  ReadAll rest := readStored rest
  Close _ := none

/-- Modelled from the spec: the package `server/util/disk` is not among the
sources. A file system in memory, a map from paths to file contents:
`WriteFile` replaces the content under the path, `ReadFile` returns it,
`DeleteFile` removes it, `FileExists` tells whether it is there; a missing file
is `os.ErrNotExist`. Readers and writers are the path they were opened on. -/
def memDisk : disk (String → Option Bytes) String String where
  WriteFile s path data :=
    ((fun p => if p = path then some data else s p), (data.length : Int), none)
  ReadFile s path :=
    match s path with
    | some data => (s, data, none)
    | none => (s, [], some os.ErrNotExist)
  DeleteFile s path :=
    match s path with
    | some _ => ((fun p => if p = path then none else s p), none)
    | none => (s, some os.ErrNotExist)
  FileExists s path := (s, (s path).isSome, none)
  FileReader s path _ _ :=
    match s path with
    | some _ => (s, some path, none)
    | none => (s, none, some os.ErrNotExist)
  FileWriter s path := (s, some path, none)

/-- A path join for the reference instances: the two parts with a slash between. -/
def slashJoin : filepath where
  Join dir name := dir ++ "/" ++ name

/-- An object store in which no object exists: every lookup signals
`storage.ErrObjectNotExist`. -/
def emptyBucket : GCSBlobStore Bytes Unit where
  Object _ :=
    { NewReader := Except.error storage.ErrObjectNotExist
      NewWriter := ()
      Delete := some storage.ErrObjectNotExist
      Attrs := some storage.ErrObjectNotExist }
  ReadAll b := (b, none)

/-! ## Properties stated over the collaborators -/

/-- The round trip of `compress/gzip` at `data`: writing `data` and closing
the writer succeeds, and on the bytes written `NewReader` succeeds, `ReadAll`
returns `data` and `Close` returns `nil`. -/
def gzip.Codec.RoundTrips {ω ρ : Type} (gz : gzip.Codec ω ρ) (data : Bytes) : Prop :=
  ∃ w enc r, gz.Write data = Except.ok w ∧ gz.CloseWriter w = Except.ok enc ∧
    gzip.NewReader gz enc = Except.ok r ∧ gz.ReadAll r = Except.ok data ∧ gz.Close r = none

/-- A store that returns the bytes it was given: reading a path right after
a successful write to it returns the bytes written and no error. -/
def disk.ReturnsWhatWasWritten {σ R W : Type} (dk : disk σ R W) : Prop :=
  ∀ (s : σ) (path : String) (data : Bytes),
    (dk.WriteFile s path data).2.2 = none →
      (dk.ReadFile (dk.WriteFile s path data).1 path).2 = (data, none)

/-! ## Reading a run of `PublishBuildToolEventStream` -/

/-- The acknowledgments sent to the client, in order. -/
def acksSent (tr : List Effect) : List PublishBuildToolEventStreamResponse :=
  tr.filterMap (fun a => match a with
    | Effect.Send rsp => some rsp
    | _ => none)

/-- The requests `Recv` returned, in order. -/
def received (tr : List Effect) : List PublishBuildToolEventStreamRequest :=
  tr.filterMap (fun a => match a with
    | Effect.Recv (some inp) _ => some inp
    | _ => none)

/-- The requests handed to `channel.HandleEvent`, in order. -/
def delegated (tr : List Effect) : List PublishBuildToolEventStreamRequest :=
  tr.filterMap (fun a => match a with
    | Effect.HandleEvent inp _ => some inp
    | _ => none)

/-- The requests for which `channel.HandleEvent` returned `nil`, in order. -/
def delegatedOk (tr : List Effect) : List PublishBuildToolEventStreamRequest :=
  tr.filterMap (fun a => match a with
    | Effect.HandleEvent inp none => some inp
    | _ => none)

/-- The requests sent on the forwarding stream of proxy client `i`, in order. -/
def forwardedTo (i : Nat) (tr : List Effect) : List PublishBuildToolEventStreamRequest :=
  tr.filterMap (fun a => match a with
    | Effect.ForwardSend j inp _ => if j = i then some inp else none
    | _ => none)

/-- The proxy clients whose forwarding stream was half-closed, one entry per `CloseSend`. -/
def closed (tr : List Effect) : List Nat :=
  tr.filterMap (fun a => match a with
    | Effect.CloseSend i _ => some i
    | _ => none)

/-- Whether the effect is a `CloseSend`. -/
def Effect.isCloseSend : Effect → Bool
  | Effect.CloseSend _ _ => true
  | _ => false

/-- Whether the list of proxy clients has a client at position `i` whose
forwarding stream opens. -/
def opensAt (clients : List ProxyClient) (i : Nat) : Bool :=
  match clients[i]? with
  | some client =>
    match client.PublishBuildToolEventStream with
    | Except.ok _ => true
    | Except.error _ => false
  | none => false

/-- Whether proxy client `i` exists and its forwarding stream opens. -/
def BuildEventProtocolServer.opens {χ : Type} (s : BuildEventProtocolServer χ) (i : Nat) : Bool :=
  opensAt s.GetBuildEventProxyClients i

/-- The errors `HandleEvent` returns on the requests in turn, starting from
the channel state `c` (`none` is `nil`). -/
def delegations {χ : Type} (s : BuildEventProtocolServer χ) :
    χ → List PublishBuildToolEventStreamRequest → List (Option error)
  | _, [] => []
  | c, inp :: rest => (s.HandleEvent c inp).2 :: delegations s (s.HandleEvent c inp).1 rest

/-- The sequence numbers of the requests, in arrival order; `none` for a
request without an ordered build event. -/
def sequenceNumbers (events : List PublishBuildToolEventStreamRequest) : List (Option Int) :=
  events.map (fun inp => inp.OrderedBuildEvent.map (fun obe => obe.SequenceNumber))

/-- The numbers `1, 2, ..., N`. -/
def oneTo (N : Nat) : List Int := (List.range' 1 N).map (fun (n : Nat) => (n : Int))

/-! ## Reference instances of the collaborators of `build_event_server.go` -/

/-- A stream id for the examples. -/
def exampleStreamId : StreamId := { BuildId := "build", InvocationId := "inv", Component := 1 }

/-- A request with the example stream id and the given sequence number. -/
def exampleEvent (n : Int) : PublishBuildToolEventStreamRequest :=
  { OrderedBuildEvent := some { StreamId := some exampleStreamId, SequenceNumber := n, Event := [] } }

/-- A request whose ordered build event has the given sequence number and no
stream id (the `StreamId` pointer is `nil`). -/
def eventWithoutStreamId (n : Int) : PublishBuildToolEventStreamRequest :=
  { OrderedBuildEvent := some { StreamId := none, SequenceNumber := n, Event := [] } }

/-- A server without proxy clients whose channel counts the events it has
handled and accepts every one of them. -/
def acceptingServer : BuildEventProtocolServer Nat where
  GetBuildEventProxyClients := []
  OpenChannel _ := 0
  HandleEvent c _ := (c + 1, none)

/-- A server with one proxy client that connects, whose channel accepts the
first `k` events and fails with the error `broken build` on the next. -/
def failingServer (k : Nat) : BuildEventProtocolServer Nat where
  GetBuildEventProxyClients := [{ PublishBuildToolEventStream := Except.ok ⟨[], none⟩ }]
  OpenChannel _ := 0
  HandleEvent c _ := (c + 1, if c = k then some (error.other "broken build") else none)

/-! ## The part of a run that the client sees -/

/-- The local variables without the forwarding streams. -/
def Locals.withoutStreams {χ : Type} (l : Locals χ) : Locals χ :=
  { l with forwardingStreams := [] }

/-- The end of a pass through the loop body, without the forwarding streams. -/
def Step.withoutStreams {χ : Type} : Step χ → Step χ
  | Step.next l => Step.next l.withoutStreams
  | Step.returned err => Step.returned err
  | Step.panicked => Step.panicked

/-- The end of the receive loop, without the forwarding streams. -/
def LoopExit.withoutStreams {χ : Type} : LoopExit χ → LoopExit χ
  | LoopExit.broke l => LoopExit.broke l.withoutStreams
  | LoopExit.returned err => LoopExit.returned err
  | LoopExit.panicked => LoopExit.panicked

/-- Lines 95-115 read off the end of the receive loop: how the call ends and
the acknowledgments it sends. -/
def finish {χ : Type} (ex : LoopExit χ) : Outcome × List PublishBuildToolEventStreamResponse :=
  match ex with
  | LoopExit.panicked => (Outcome.panicked, [])
  | LoopExit.returned err => (Outcome.returned (some err), [])
  | LoopExit.broke l =>
    if acksInOrder (l.acks.insertionSort (· ≤ ·)) 0 = false then
      (Outcome.returned (some io.EOF), [])
    else
      (Outcome.returned none,
        (l.acks.insertionSort (· ≤ ·)).map
          (fun ack => { StreamId := l.streamID, SequenceNumber := ack }))

/-- The stream id taken from the first request of the stream, if it has one. -/
def firstStreamId (events : List PublishBuildToolEventStreamRequest) : Option StreamId :=
  (events.head?.bind (fun inp => inp.OrderedBuildEvent)).bind (fun obe => obe.StreamId)

/-! ## Theorems: `blobstore.go` -/

/-- `strings.containsChars` decides whether `substr` occurs in `s`. -/
theorem strings.containsChars_iff (substr s : List Char) :
    strings.containsChars substr s = true ↔ substr <:+: s := by
  induction s with
  | nil => simp [strings.containsChars, List.isEmpty_iff]
  | cons c cs ih =>
    simp only [strings.containsChars, Bool.or_eq_true, ih, List.infix_cons_iff,
      List.isPrefixOf_iff_prefix]

/-- `strings.Contains` decides whether `substr` occurs in `s`. -/
theorem strings.Contains_iff (s substr : String) :
    strings.Contains s substr = true ↔ substr.toList <:+: s.toList :=
  strings.containsChars_iff _ _

/-- `blobPath` on a name that contains `..` returns an error. -/
theorem DiskBlobStore.blobPath_dotdot (fp : filepath) (d : DiskBlobStore) (blobName : String)
    (h : "..".toList <:+: blobName.toList) :
    d.blobPath fp blobName
      = ("", some (fmt.Errorf ("blobName (" ++ blobName ++ ") must not contain ../"))) := by
  have hc : strings.Contains blobName ".." = true := (strings.Contains_iff _ _).2 h
  simp [DiskBlobStore.blobPath, hc]

/-- `blobPath` on a name without `..` returns the joined path. -/
theorem DiskBlobStore.blobPath_ok (fp : filepath) (d : DiskBlobStore) (blobName : String)
    (h : ¬ "..".toList <:+: blobName.toList) :
    d.blobPath fp blobName = (fp.Join d.rootDir blobName, none) := by
  have hc : strings.Contains blobName ".." = false := by
    rw [← Bool.not_eq_true, strings.Contains_iff]; exact h
  simp [DiskBlobStore.blobPath, hc]

/-- `decompress` after `compress` returns the data when the gzip library round-trips it. -/
theorem decompress_compress {ω ρ : Type} (gz : gzip.Codec ω ρ) (data : Bytes)
    (hgz : gz.RoundTrips data) :
    decompress gz (compress gz data).1 (compress gz data).2 = (data, none) := by
  obtain ⟨w, enc, r, hw, hc, hr, ha, hcl⟩ := hgz
  simp [compress, decompress, hw, hc, hr, ha, hcl]

/-- On at least ten bytes that do not start with `1f 8b 08`, `decompress`
returns the bytes unchanged and no error. -/
theorem decompress_no_magic {ω ρ : Type} (gz : gzip.Codec ω ρ) (raw : Bytes)
    (hlen : 10 ≤ raw.length)
    (hmagic : raw.getD 0 0 ≠ 0x1f ∨ raw.getD 1 0 ≠ 0x8b ∨ raw.getD 2 0 ≠ 8) :
    decompress gz raw none = (raw, none) := by
  have h0 : (raw.take 10).getD 0 0 = raw.getD 0 0 := by
    simp [List.getD_eq_getElem?_getD, List.getElem?_take]
  have h1 : (raw.take 10).getD 1 0 = raw.getD 1 0 := by
    simp [List.getD_eq_getElem?_getD, List.getElem?_take]
  have h2 : (raw.take 10).getD 2 0 = raw.getD 2 0 := by
    simp [List.getD_eq_getElem?_getD, List.getElem?_take]
  have hm : (raw.take 10).getD 0 0 ≠ gzip.gzipID1 ∨ (raw.take 10).getD 1 0 ≠ gzip.gzipID2
      ∨ (raw.take 10).getD 2 0 ≠ gzip.gzipDeflate := by
    rw [h0, h1, h2]; exact hmagic
  simp only [decompress, gzip.NewReader, io.ReadFull, if_pos hlen, if_pos hm]
  simp

/-- Fewer than ten bytes: `decompress` returns the error of `io.ReadFull`, and no bytes. -/
theorem decompress_short {ω ρ : Type} (gz : gzip.Codec ω ρ) (raw : Bytes)
    (hlen : raw.length < 10) :
    decompress gz raw none
      = ([], some (if raw.length = 0 then io.EOF else io.ErrUnexpectedEOF)) := by
  have hn : ¬ 10 ≤ raw.length := by omega
  by_cases h0 : raw.length = 0
  · simp [decompress, gzip.NewReader, io.ReadFull, hn, h0, io.EOF, gzip.ErrHeader]
  · simp [decompress, gzip.NewReader, io.ReadFull, hn, h0, io.ErrUnexpectedEOF, gzip.ErrHeader]

/-- The three operations of the cloud backend that translate the not-found signal. -/
theorem GCSBlobStore.not_found_translated {R W ω ρ : Type} (gz : gzip.Codec ω ρ)
    (g : GCSBlobStore R W) (blobName : String) (offset length : Int) :
    ((g.Object blobName).NewReader = Except.error storage.ErrObjectNotExist →
      g.ReadBlob gz blobName = ([], some os.ErrNotExist) ∧
      g.BlobReader blobName offset length = (none, some os.ErrNotExist)) ∧
    ((g.Object blobName).Attrs = some storage.ErrObjectNotExist →
      g.BlobExists blobName = (false, none)) := by
  refine ⟨fun h => ⟨?_, ?_⟩, fun h => ?_⟩
  · simp [GCSBlobStore.ReadBlob, h]
  · simp [GCSBlobStore.BlobReader, h]
  · simp [GCSBlobStore.BlobExists, h]

/-- The in-memory file system returns the bytes it was given. -/
theorem memDisk_returnsWhatWasWritten : memDisk.ReturnsWhatWasWritten := by
  intro s path data _
  simp [memDisk]

/-- C4: for every byte sequence `data` and every blob name, when the gzip
library round-trips `data` and the store returns the bytes it was given,
`ReadBlob` after a successful `WriteBlob(name, data)` returns exactly `data`
and no error; and `decompress(compress(data))` is `(data, nil)`. -/
theorem C4_write_then_read_roundtrip {σ R W ω ρ : Type} (fp : filepath) (dk : disk σ R W)
    (gz : gzip.Codec ω ρ) (d : DiskBlobStore) (s : σ) (blobName : String) (data : Bytes)
    (hgz : gz.RoundTrips data)
    (hdisk : dk.ReturnsWhatWasWritten)
    (hwrite : (d.WriteBlob fp dk gz s blobName data).ret.2 = none) :
    (d.ReadBlob fp dk gz (d.WriteBlob fp dk gz s blobName data).fs blobName).ret = (data, none)
    ∧ decompress gz (compress gz data).1 (compress gz data).2 = (data, none) := by
  refine ⟨?_, decompress_compress gz data hgz⟩
  have hdc := decompress_compress gz data hgz
  obtain ⟨w, enc, r, hw, hc, -, -, -⟩ := hgz
  have hcomp : compress gz data = (enc, none) := by simp [compress, hw, hc]
  rw [hcomp] at hdc
  by_cases hdd : "..".toList <:+: blobName.toList
  · have hp := DiskBlobStore.blobPath_dotdot fp d blobName hdd
    simp [DiskBlobStore.WriteBlob, hp] at hwrite
  · have hp := DiskBlobStore.blobPath_ok fp d blobName hdd
    simp only [DiskBlobStore.WriteBlob, hp, hcomp] at hwrite ⊢
    simp only [DiskBlobStore.ReadBlob, hp]
    have hrd := hdisk s (fp.Join d.rootDir blobName) enc hwrite
    have h1 : (dk.ReadFile (dk.WriteFile s (fp.Join d.rootDir blobName) enc).1
        (fp.Join d.rootDir blobName)).2.1 = enc := by rw [hrd]
    have h2 : (dk.ReadFile (dk.WriteFile s (fp.Join d.rootDir blobName) enc).1
        (fp.Join d.rootDir blobName)).2.2 = none := by rw [hrd]
    simp only [h1, h2]
    exact hdc

/-- Witness of C4: the bytes `1 2 3` written to and read from the in-memory
file system through the stored-block codec. -/
theorem C4_write_then_read_roundtrip_witness :
    (DiskBlobStore.ReadBlob slashJoin memDisk storedCodec (NewDiskBlobStore "/data")
        (DiskBlobStore.WriteBlob slashJoin memDisk storedCodec (NewDiskBlobStore "/data")
          (fun _ => none) "blob" [1, 2, 3]).fs "blob").ret = ([1, 2, 3], none)
    ∧ decompress storedCodec (compress storedCodec [1, 2, 3]).1
        (compress storedCodec [1, 2, 3]).2 = ([1, 2, 3], none) :=
  C4_write_then_read_roundtrip slashJoin memDisk storedCodec (NewDiskBlobStore "/data")
    (fun _ => none) "blob" [1, 2, 3]
    ⟨[1, 2, 3], storedMember [1, 2, 3], [1, 3, 0, 252, 255, 1, 2, 3, 29, 128, 188, 85, 3, 0, 0, 0],
      rfl, rfl, rfl, rfl, rfl⟩
    memDisk_returnsWhatWasWritten (by decide)

/-- C5: on stored bytes shorter than the ten-byte gzip header `decompress`
returns an error and no bytes, for every gzip codec: `io.EOF` on the
empty sequence and `io.ErrUnexpectedEOF` on the two bytes `hi`. -/
theorem C5_short_legacy_blob_is_an_error {ω ρ : Type} (gz : gzip.Codec ω ρ) :
    decompress gz [] none = ([], some io.EOF)
    ∧ decompress gz [0x68, 0x69] none = ([], some io.ErrUnexpectedEOF) :=
  ⟨decompress_short gz [] (by decide), decompress_short gz [0x68, 0x69] (by decide)⟩

/-- C6: for every blob name that contains `..`, each of the six operations of
`DiskBlobStore` returns an error, makes no call into `disk` and leaves the file
system as it was; for every name without `..`, `blobPath` returns the root
directory joined to the name, and no error. -/
theorem C6_dotdot_rejected_by_every_operation {σ R W ω ρ : Type} (fp : filepath)
    (dk : disk σ R W) (gz : gzip.Codec ω ρ) (d : DiskBlobStore) (s : σ) (blobName : String)
    (data : Bytes) (offset length : Int) :
    ("..".toList <:+: blobName.toList →
      ((d.WriteBlob fp dk gz s blobName data).ret.2 ≠ none
        ∧ (d.WriteBlob fp dk gz s blobName data).calls = []
        ∧ (d.WriteBlob fp dk gz s blobName data).fs = s)
      ∧ ((d.ReadBlob fp dk gz s blobName).ret.2 ≠ none
        ∧ (d.ReadBlob fp dk gz s blobName).calls = []
        ∧ (d.ReadBlob fp dk gz s blobName).fs = s)
      ∧ ((d.DeleteBlob fp dk s blobName).ret ≠ none
        ∧ (d.DeleteBlob fp dk s blobName).calls = []
        ∧ (d.DeleteBlob fp dk s blobName).fs = s)
      ∧ ((d.BlobExists fp dk s blobName).ret.2 ≠ none
        ∧ (d.BlobExists fp dk s blobName).calls = []
        ∧ (d.BlobExists fp dk s blobName).fs = s)
      ∧ ((d.BlobReader fp dk s blobName offset length).ret.2 ≠ none
        ∧ (d.BlobReader fp dk s blobName offset length).calls = []
        ∧ (d.BlobReader fp dk s blobName offset length).fs = s)
      ∧ ((d.BlobWriter fp dk s blobName).ret.2 ≠ none
        ∧ (d.BlobWriter fp dk s blobName).calls = []
        ∧ (d.BlobWriter fp dk s blobName).fs = s))
    ∧ (¬ "..".toList <:+: blobName.toList →
      d.blobPath fp blobName = (fp.Join d.rootDir blobName, none)) := by
  refine ⟨fun h => ?_, DiskBlobStore.blobPath_ok fp d blobName⟩
  have hp := DiskBlobStore.blobPath_dotdot fp d blobName h
  simp [DiskBlobStore.WriteBlob, DiskBlobStore.ReadBlob, DiskBlobStore.DeleteBlob,
    DiskBlobStore.BlobExists, DiskBlobStore.BlobReader, DiskBlobStore.BlobWriter, hp]

/-- Witness of C6: the name `../secret` is refused by `ReadBlob` without a call
into `disk`, and the name `a/b` gets the path `/data/a/b`. -/
theorem C6_dotdot_rejected_by_every_operation_witness :
    ("..".toList <:+: "../secret".toList
      ∧ (DiskBlobStore.ReadBlob slashJoin memDisk storedCodec (NewDiskBlobStore "/data")
          (fun _ => none) "../secret").calls = [])
    ∧ (¬ "..".toList <:+: "a/b".toList
      ∧ DiskBlobStore.blobPath slashJoin (NewDiskBlobStore "/data") "a/b" = ("/data/a/b", none)) :=
  ⟨⟨by decide,
    ((C6_dotdot_rejected_by_every_operation slashJoin memDisk storedCodec
      (NewDiskBlobStore "/data") (fun _ => none) "../secret" [] 0 0).1 (by decide)).2.1.2.1⟩,
   ⟨by decide,
    (C6_dotdot_rejected_by_every_operation slashJoin memDisk storedCodec
      (NewDiskBlobStore "/data") (fun _ => none) "a/b" [] 0 0).2 (by decide)⟩⟩

/-- C7: on an object store that signals `storage.ErrObjectNotExist`,
`DeleteBlob` returns that error itself, which is not `os.ErrNotExist`. -/
theorem C7_DeleteBlob_returns_backend_error :
    GCSBlobStore.DeleteBlob emptyBucket "missing" = some storage.ErrObjectNotExist
    ∧ GCSBlobStore.DeleteBlob emptyBucket "missing" ≠ some os.ErrNotExist := by
  decide

/-! ## Lemmas: reading a trace -/

theorem acksSent_append (a b : List Effect) : acksSent (a ++ b) = acksSent a ++ acksSent b := by
  simp [acksSent]

theorem received_append (a b : List Effect) : received (a ++ b) = received a ++ received b := by
  simp [received]

theorem delegated_append (a b : List Effect) :
    delegated (a ++ b) = delegated a ++ delegated b := by
  simp [delegated]

theorem delegatedOk_append (a b : List Effect) :
    delegatedOk (a ++ b) = delegatedOk a ++ delegatedOk b := by
  simp [delegatedOk]

theorem forwardedTo_append (i : Nat) (a b : List Effect) :
    forwardedTo i (a ++ b) = forwardedTo i a ++ forwardedTo i b := by
  simp [forwardedTo]

theorem closed_append (a b : List Effect) : closed (a ++ b) = closed a ++ closed b := by
  simp [closed]

/-! ## Lemmas: `forwardAll` -/

theorem forwardAll_indices (inp : PublishBuildToolEventStreamRequest)
    (fs : List (Nat × ForwardingStream)) :
    (forwardAll inp fs).1.map Prod.fst = fs.map Prod.fst := by
  induction fs with
  | nil => rfl
  | cons p rest ih =>
    obtain ⟨i, st⟩ := p
    simp [forwardAll, ih]

theorem forwardAll_effects (inp : PublishBuildToolEventStreamRequest)
    (fs : List (Nat × ForwardingStream)) :
    ∀ a ∈ (forwardAll inp fs).2, ∃ j err, a = Effect.ForwardSend j inp err := by
  induction fs with
  | nil => simp [forwardAll]
  | cons p rest ih =>
    obtain ⟨i, st⟩ := p
    intro a ha
    simp only [forwardAll, List.mem_cons] at ha
    rcases ha with rfl | ha
    · exact ⟨_, _, rfl⟩
    · exact ih a ha

theorem forwardAll_forwardedTo (inp : PublishBuildToolEventStreamRequest) (i : Nat)
    (fs : List (Nat × ForwardingStream)) :
    forwardedTo i (forwardAll inp fs).2 = List.replicate ((fs.map Prod.fst).count i) inp := by
  induction fs with
  | nil => rfl
  | cons p rest ih =>
    obtain ⟨j, st⟩ := p
    have hcons : forwardedTo i (forwardAll inp ((j, st) :: rest)).2
        = (if j = i then [inp] else []) ++ forwardedTo i (forwardAll inp rest).2 := by
      by_cases h : j = i <;> simp [forwardAll, forwardedTo, h]
    rw [hcons, ih]
    by_cases h : j = i
    · subst h
      simp [List.replicate_succ]
    · simp [h, List.count_cons_of_ne (Ne.symm h)]

/-- A trace made of `ForwardSend` effects only shows nothing else. -/
theorem only_forward_sends (tr : List Effect) (inp : PublishBuildToolEventStreamRequest)
    (h : ∀ a ∈ tr, ∃ j err, a = Effect.ForwardSend j inp err) :
    acksSent tr = [] ∧ received tr = [] ∧ delegated tr = [] ∧ delegatedOk tr = []
      ∧ closed tr = [] := by
  induction tr with
  | nil => simp [acksSent, received, delegated, delegatedOk, closed]
  | cons a rest ih =>
    obtain ⟨j, err, rfl⟩ := h a (List.mem_cons_self _ _)
    have ih' := ih (fun b hb => h b (List.mem_cons_of_mem _ hb))
    simp only [acksSent, received, delegated, delegatedOk, closed, List.filterMap_cons] at ih' ⊢
    exact ih'

/-! ## Lemmas: the body of the receive loop -/

theorem openOnFirst_effects {χ : Type} (s : BuildEventProtocolServer χ) (l : Locals χ)
    (inp : PublishBuildToolEventStreamRequest) (sid : StreamId) (c : χ) (opened : List Effect)
    (h : openOnFirst s l inp = some (sid, c, opened)) :
    opened = [] ∨ ∃ inv, opened = [Effect.OpenChannel inv] := by
  unfold openOnFirst at h
  split at h
  · split at h
    · exact absurd h (by simp)
    · split at h
      · exact absurd h (by simp)
      · simp only [Option.some.injEq, Prod.mk.injEq] at h
        exact Or.inr ⟨_, h.2.2.symm⟩
  · split at h
    · exact absurd h (by simp)
    · simp only [Option.some.injEq, Prod.mk.injEq] at h
      exact Or.inl h.2.2.symm

/-- The four ways through the body of the receive loop. -/
theorem loopBody_cases {χ : Type} (s : BuildEventProtocolServer χ) (l : Locals χ)
    (inp : PublishBuildToolEventStreamRequest) :
    (openOnFirst s l inp = none ∧ loopBody s l inp = (Step.panicked, []))
    ∨ (∃ sid c opened err, openOnFirst s l inp = some (sid, c, opened)
        ∧ (s.HandleEvent c inp).2 = some err
        ∧ loopBody s l inp = (Step.returned err, opened ++ [Effect.HandleEvent inp (some err)]))
    ∨ (∃ sid c opened, openOnFirst s l inp = some (sid, c, opened)
        ∧ (s.HandleEvent c inp).2 = none ∧ inp.OrderedBuildEvent = none
        ∧ loopBody s l inp = (Step.panicked,
            opened ++ Effect.HandleEvent inp none :: (forwardAll inp l.forwardingStreams).2))
    ∨ (∃ sid c opened obe, openOnFirst s l inp = some (sid, c, opened)
        ∧ (s.HandleEvent c inp).2 = none ∧ inp.OrderedBuildEvent = some obe
        ∧ loopBody s l inp = (Step.next
            { acks := l.acks ++ [obe.SequenceNumber]
              streamID := some sid
              channel := some (s.HandleEvent c inp).1
              forwardingStreams := (forwardAll inp l.forwardingStreams).1 },
            opened ++ Effect.HandleEvent inp none :: (forwardAll inp l.forwardingStreams).2)) := by
  cases ho : openOnFirst s l inp with
  | none => left; simp [loopBody, ho]
  | some t =>
    obtain ⟨sid, c, opened⟩ := t
    right
    cases hh : s.HandleEvent c inp with
    | mk c' oerr =>
      cases oerr with
      | some err =>
        left
        exact ⟨sid, c, opened, err, rfl, by rw [hh], by simp [loopBody, ho, hh]⟩
      | none =>
        right
        cases hobe : inp.OrderedBuildEvent with
        | none =>
          left
          exact ⟨sid, c, opened, rfl, by rw [hh], rfl, by simp [loopBody, ho, hh, hobe]⟩
        | some obe =>
          right
          exact ⟨sid, c, opened, obe, rfl, by rw [hh], rfl, by simp [loopBody, ho, hh, hobe]⟩

/-- The body of the receive loop receives nothing, acknowledges nothing and closes nothing. -/
theorem loopBody_quiet {χ : Type} (s : BuildEventProtocolServer χ) (l : Locals χ)
    (inp : PublishBuildToolEventStreamRequest) :
    acksSent (loopBody s l inp).2 = [] ∧ received (loopBody s l inp).2 = []
      ∧ closed (loopBody s l inp).2 = [] := by
  have hf := only_forward_sends _ inp (forwardAll_effects inp l.forwardingStreams)
  rcases loopBody_cases s l inp with ⟨_, h⟩ | ⟨sid, c, opened, err, ho, _, h⟩
    | ⟨sid, c, opened, ho, _, _, h⟩ | ⟨sid, c, opened, obe, ho, _, _, h⟩
  · rw [h]; simp [acksSent, received, closed]
  all_goals
    rw [h]
    rcases openOnFirst_effects s l inp sid c opened ho with rfl | ⟨inv, rfl⟩
    all_goals
      simp only [List.nil_append, List.singleton_append, acksSent, received, closed,
        List.filterMap_cons, List.filterMap_nil] at hf ⊢
    all_goals first | exact ⟨hf.1, hf.2.1, hf.2.2.2.2⟩ | simp

/-- With distinct stream indices, the body of the loop forwards the request
once to each forwarding stream when the delegation succeeded, and not at all
otherwise. -/
theorem loopBody_forwarded {χ : Type} (s : BuildEventProtocolServer χ) (l : Locals χ)
    (inp : PublishBuildToolEventStreamRequest) (i : Nat)
    (hnd : (l.forwardingStreams.map Prod.fst).Nodup) :
    forwardedTo i (loopBody s l inp).2
      = if i ∈ l.forwardingStreams.map Prod.fst then delegatedOk (loopBody s l inp).2 else [] := by
  have hf := only_forward_sends _ inp (forwardAll_effects inp l.forwardingStreams)
  have hfw := forwardAll_forwardedTo inp i l.forwardingStreams
  have hcount : List.replicate ((l.forwardingStreams.map Prod.fst).count i) inp
      = if i ∈ l.forwardingStreams.map Prod.fst then [inp] else [] := by
    by_cases hi : i ∈ l.forwardingStreams.map Prod.fst
    · rw [if_pos hi, List.count_eq_one_of_mem hnd hi]; rfl
    · rw [if_neg hi, List.count_eq_zero_of_not_mem hi]; rfl
  rw [hcount] at hfw
  rcases loopBody_cases s l inp with ⟨_, h⟩ | ⟨sid, c, opened, err, ho, _, h⟩
    | ⟨sid, c, opened, ho, _, _, h⟩ | ⟨sid, c, opened, obe, ho, _, _, h⟩
  · rw [h]; simp [forwardedTo, delegatedOk]
  all_goals
    rw [h]
    rcases openOnFirst_effects s l inp sid c opened ho with rfl | ⟨inv, rfl⟩
    all_goals
      simp only [List.nil_append, List.singleton_append, forwardedTo, delegatedOk,
        List.filterMap_cons, List.filterMap_nil] at hf hfw ⊢
    all_goals first
      | (rw [hfw, hf.2.2.2.1])
      | simp

/-- What the body of the loop delegates: the request, unless a nil pointer stopped it first. -/
theorem loopBody_delegated {χ : Type} (s : BuildEventProtocolServer χ) (l : Locals χ)
    (inp : PublishBuildToolEventStreamRequest) :
    (delegated (loopBody s l inp).2 = [inp] ∨ (loopBody s l inp) = (Step.panicked, []))
    ∧ (∀ l', (loopBody s l inp).1 = Step.next l' →
        delegatedOk (loopBody s l inp).2 = [inp]
        ∧ l'.forwardingStreams.map Prod.fst = l.forwardingStreams.map Prod.fst)
    ∧ (delegatedOk (loopBody s l inp).2 = [inp] ∨ delegatedOk (loopBody s l inp).2 = []) := by
  have hf := only_forward_sends _ inp (forwardAll_effects inp l.forwardingStreams)
  have hidx := forwardAll_indices inp l.forwardingStreams
  rcases loopBody_cases s l inp with ⟨_, h⟩ | ⟨sid, c, opened, err, ho, _, h⟩
    | ⟨sid, c, opened, ho, _, _, h⟩ | ⟨sid, c, opened, obe, ho, _, _, h⟩
  · rw [h]; simp [delegatedOk]
  all_goals
    rw [h]
    rcases openOnFirst_effects s l inp sid c opened ho with rfl | ⟨inv, rfl⟩
    all_goals
      simp only [List.nil_append, List.singleton_append, delegated, delegatedOk,
        List.filterMap_cons, List.filterMap_nil] at hf ⊢
    all_goals
      simp [hf.2.2.1, hf.2.2.2.1]
    all_goals exact hidx

/-! ## Lemmas: the receive loop -/

theorem recvLoop_cons_next {χ : Type} (s : BuildEventProtocolServer χ) (closing : error)
    (inp : PublishBuildToolEventStreamRequest) (rest : List PublishBuildToolEventStreamRequest)
    (l l' : Locals χ) (h : (loopBody s l inp).1 = Step.next l') :
    recvLoop s closing (inp :: rest) l
      = ((recvLoop s closing rest l').1,
          Effect.Recv (some inp) none :: (loopBody s l inp).2 ++ (recvLoop s closing rest l').2) := by
  rcases hb : loopBody s l inp with ⟨st, btr⟩
  rw [hb] at h
  simp only at h
  subst h
  simp [recvLoop, hb]

theorem recvLoop_cons_returned {χ : Type} (s : BuildEventProtocolServer χ) (closing : error)
    (inp : PublishBuildToolEventStreamRequest) (rest : List PublishBuildToolEventStreamRequest)
    (l : Locals χ) (err : error) (h : (loopBody s l inp).1 = Step.returned err) :
    recvLoop s closing (inp :: rest) l
      = (LoopExit.returned err, Effect.Recv (some inp) none :: (loopBody s l inp).2) := by
  rcases hb : loopBody s l inp with ⟨st, btr⟩
  rw [hb] at h
  simp only at h
  subst h
  simp [recvLoop, hb]

theorem recvLoop_cons_panicked {χ : Type} (s : BuildEventProtocolServer χ) (closing : error)
    (inp : PublishBuildToolEventStreamRequest) (rest : List PublishBuildToolEventStreamRequest)
    (l : Locals χ) (h : (loopBody s l inp).1 = Step.panicked) :
    recvLoop s closing (inp :: rest) l
      = (LoopExit.panicked, Effect.Recv (some inp) none :: (loopBody s l inp).2) := by
  rcases hb : loopBody s l inp with ⟨st, btr⟩
  rw [hb] at h
  simp only at h
  subst h
  simp [recvLoop, hb]

theorem recvLoop_nil {χ : Type} (s : BuildEventProtocolServer χ) (closing : error)
    (l : Locals χ) :
    (recvLoop s closing [] l).2 = [Effect.Recv none (some closing)] := by
  by_cases h : closing = io.EOF <;> simp [recvLoop, h]

/-- The three ways a pass through the body ends. -/
theorem step_cases {χ : Type} (st : Step χ) :
    (∃ l', st = Step.next l') ∨ (∃ err, st = Step.returned err) ∨ st = Step.panicked := by
  cases st with
  | next l' => exact Or.inl ⟨l', rfl⟩
  | returned err => exact Or.inr (Or.inl ⟨err, rfl⟩)
  | panicked => exact Or.inr (Or.inr rfl)

/-- The receive loop acknowledges nothing and closes nothing. -/
theorem recvLoop_quiet {χ : Type} (s : BuildEventProtocolServer χ) (closing : error)
    (events : List PublishBuildToolEventStreamRequest) :
    ∀ l : Locals χ, acksSent (recvLoop s closing events l).2 = []
      ∧ closed (recvLoop s closing events l).2 = [] := by
  induction events with
  | nil => intro l; rw [recvLoop_nil]; simp [acksSent, closed]
  | cons inp rest ih =>
    intro l
    have hq := loopBody_quiet s l inp
    rcases step_cases (loopBody s l inp).1 with ⟨l', h⟩ | ⟨err, h⟩ | h
    · rw [recvLoop_cons_next s closing inp rest l l' h]
      have := ih l'
      simp only [acksSent, closed, List.filterMap_cons, List.filterMap_append] at hq this ⊢
      simp [hq.1, hq.2.2, this.1, this.2]
    · rw [recvLoop_cons_returned s closing inp rest l err h]
      simp only [acksSent, closed, List.filterMap_cons] at hq ⊢
      simp [hq.1, hq.2.2]
    · rw [recvLoop_cons_panicked s closing inp rest l h]
      simp only [acksSent, closed, List.filterMap_cons] at hq ⊢
      simp [hq.1, hq.2.2]

/-- With distinct stream indices, the receive loop forwards to each forwarding
stream exactly the requests whose delegation succeeded, in order. -/
theorem recvLoop_forwarded {χ : Type} (s : BuildEventProtocolServer χ) (closing : error)
    (i : Nat) (events : List PublishBuildToolEventStreamRequest) :
    ∀ l : Locals χ, (l.forwardingStreams.map Prod.fst).Nodup →
      forwardedTo i (recvLoop s closing events l).2
        = if i ∈ l.forwardingStreams.map Prod.fst
          then delegatedOk (recvLoop s closing events l).2 else [] := by
  induction events with
  | nil => intro l _; rw [recvLoop_nil]; simp [forwardedTo, delegatedOk]
  | cons inp rest ih =>
    intro l hnd
    have hb := loopBody_forwarded s l inp i hnd
    rcases step_cases (loopBody s l inp).1 with ⟨l', h⟩ | ⟨err, h⟩ | h
    · rw [recvLoop_cons_next s closing inp rest l l' h]
      have hidx := ((loopBody_delegated s l inp).2.1 l' h).2
      have := ih l' (hidx ▸ hnd)
      rw [hidx] at this
      have e1 : forwardedTo i (Effect.Recv (some inp) none :: (loopBody s l inp).2
          ++ (recvLoop s closing rest l').2)
          = forwardedTo i (loopBody s l inp).2 ++ forwardedTo i (recvLoop s closing rest l').2 := by
        rw [List.cons_append, ← forwardedTo_append]; simp [forwardedTo]
      have e2 : delegatedOk (Effect.Recv (some inp) none :: (loopBody s l inp).2
          ++ (recvLoop s closing rest l').2)
          = delegatedOk (loopBody s l inp).2 ++ delegatedOk (recvLoop s closing rest l').2 := by
        rw [List.cons_append, ← delegatedOk_append]; simp [delegatedOk]
      simp only [e1, e2, hb, this]
      split <;> simp
    · rw [recvLoop_cons_returned s closing inp rest l err h]
      have e1 : forwardedTo i (Effect.Recv (some inp) none :: (loopBody s l inp).2)
          = forwardedTo i (loopBody s l inp).2 := by simp [forwardedTo]
      have e2 : delegatedOk (Effect.Recv (some inp) none :: (loopBody s l inp).2)
          = delegatedOk (loopBody s l inp).2 := by simp [delegatedOk]
      simp only [e1, e2, hb]
    · rw [recvLoop_cons_panicked s closing inp rest l h]
      have e1 : forwardedTo i (Effect.Recv (some inp) none :: (loopBody s l inp).2)
          = forwardedTo i (loopBody s l inp).2 := by simp [forwardedTo]
      have e2 : delegatedOk (Effect.Recv (some inp) none :: (loopBody s l inp).2)
          = delegatedOk (loopBody s l inp).2 := by simp [delegatedOk]
      simp only [e1, e2, hb]

/-! ## Lemmas: connecting the proxies -/

theorem opensAt_cons_zero (client : ProxyClient) (clients : List ProxyClient) :
    opensAt (client :: clients) 0
      = (match client.PublishBuildToolEventStream with
        | Except.ok _ => true
        | Except.error _ => false) := by
  simp [opensAt]

theorem opensAt_cons_succ (client : ProxyClient) (clients : List ProxyClient) (j : Nat) :
    opensAt (client :: clients) (j + 1) = opensAt clients j := by
  simp [opensAt]

/-- The forwarding streams are those of the clients that connect, named by position. -/
theorem connectProxies_mem (clients : List ProxyClient) :
    ∀ k i, i ∈ (connectProxies clients k).1.map Prod.fst ↔ (k ≤ i ∧ opensAt clients (i - k) = true) := by
  induction clients with
  | nil => intro k i; simp [connectProxies, opensAt]
  | cons client rest ih =>
    intro k i
    have hsucc : ∀ (h : k < i), opensAt (client :: rest) (i - k) = opensAt rest (i - (k + 1)) := by
      intro h
      have : i - k = (i - (k + 1)) + 1 := by omega
      rw [this, opensAt_cons_succ]
    cases hc : client.PublishBuildToolEventStream with
    | error err =>
      have h0 : opensAt (client :: rest) 0 = false := by rw [opensAt_cons_zero, hc]
      simp only [connectProxies, hc, ih (k + 1) i]
      constructor
      · rintro ⟨h1, h2⟩
        exact ⟨by omega, by rw [hsucc (by omega)]; exact h2⟩
      · rintro ⟨h1, h2⟩
        rcases Nat.eq_or_lt_of_le h1 with rfl | hlt
        · rw [Nat.sub_self, h0] at h2; exact absurd h2 (by simp)
        · exact ⟨hlt, by rw [← hsucc hlt]; exact h2⟩
    | ok stream =>
      have h0 : opensAt (client :: rest) 0 = true := by rw [opensAt_cons_zero, hc]
      simp only [connectProxies, hc, List.map_cons, List.mem_cons, ih (k + 1) i]
      constructor
      · rintro (rfl | ⟨h1, h2⟩)
        · exact ⟨le_refl _, by rw [Nat.sub_self]; exact h0⟩
        · exact ⟨by omega, by rw [hsucc (by omega)]; exact h2⟩
      · rintro ⟨h1, h2⟩
        rcases Nat.eq_or_lt_of_le h1 with rfl | hlt
        · exact Or.inl rfl
        · exact Or.inr ⟨hlt, by rw [← hsucc hlt]; exact h2⟩

/-- No position names two forwarding streams. -/
theorem connectProxies_nodup (clients : List ProxyClient) :
    ∀ k, ((connectProxies clients k).1.map Prod.fst).Nodup := by
  induction clients with
  | nil => intro k; simp [connectProxies]
  | cons client rest ih =>
    intro k
    cases hc : client.PublishBuildToolEventStream with
    | error err => simp only [connectProxies, hc]; exact ih (k + 1)
    | ok stream =>
      simp only [connectProxies, hc, List.map_cons, List.nodup_cons]
      refine ⟨?_, ih (k + 1)⟩
      intro hmem
      have := ((connectProxies_mem rest (k + 1) k).1 hmem).1
      omega

/-- Connecting the proxies forwards nothing, acknowledges nothing and closes nothing. -/
theorem connectProxies_quiet (clients : List ProxyClient) :
    ∀ k, acksSent (connectProxies clients k).2 = [] ∧ closed (connectProxies clients k).2 = []
      ∧ (∀ i, forwardedTo i (connectProxies clients k).2 = [])
      ∧ delegatedOk (connectProxies clients k).2 = []
      ∧ received (connectProxies clients k).2 = []
      ∧ delegated (connectProxies clients k).2 = [] := by
  induction clients with
  | nil => intro k; simp [connectProxies, acksSent, closed, forwardedTo, delegatedOk, received, delegated]
  | cons client rest ih =>
    intro k
    have := ih (k + 1)
    cases hc : client.PublishBuildToolEventStream with
    | error err =>
      simp only [connectProxies, hc, acksSent, closed, forwardedTo, delegatedOk, received,
        delegated, List.filterMap_cons] at this ⊢
      exact this
    | ok stream =>
      simp only [connectProxies, hc, acksSent, closed, forwardedTo, delegatedOk, received,
        delegated, List.filterMap_cons] at this ⊢
      exact this

/-! ## Lemmas: the whole call -/

/-- The trace of a call: connecting, the receive loop, the acknowledgments
(none when the call fails), the deferred `CloseSend` calls. -/
theorem PublishBuildToolEventStream_trace {χ : Type} (s : BuildEventProtocolServer χ)
    (stream : ServerStream) :
    ∃ acks : List PublishBuildToolEventStreamResponse,
      (s.PublishBuildToolEventStream stream).2
        = (connectProxies s.GetBuildEventProxyClients 0).2
          ++ (recvLoop s stream.closing stream.incoming
                { acks := [], streamID := none, channel := none,
                  forwardingStreams := (connectProxies s.GetBuildEventProxyClients 0).1 }).2
          ++ acks.map Effect.Send
          ++ (connectProxies s.GetBuildEventProxyClients 0).1.reverse.map
                (fun p => Effect.CloseSend p.1 p.2.closeResult) := by
  unfold BuildEventProtocolServer.PublishBuildToolEventStream
  rcases hl : recvLoop s stream.closing stream.incoming
      { acks := [], streamID := none, channel := none,
        forwardingStreams := (connectProxies s.GetBuildEventProxyClients 0).1 } with ⟨ex, tr⟩
  cases ex with
  | panicked => exact ⟨[], by simp [hl]⟩
  | returned err => exact ⟨[], by simp [hl]⟩
  | broke l =>
    by_cases hchk : acksInOrder (l.acks.insertionSort (· ≤ ·)) 0 = false
    · exact ⟨[], by simp [hl, hchk]⟩
    · exact ⟨(l.acks.insertionSort (· ≤ ·)).map
        (fun ack => { StreamId := l.streamID, SequenceNumber := ack }), by simp [hl, hchk]⟩

theorem acks_effects (acks : List PublishBuildToolEventStreamResponse) :
    acksSent (acks.map Effect.Send) = acks ∧ closed (acks.map Effect.Send) = []
      ∧ (∀ i, forwardedTo i (acks.map Effect.Send) = [])
      ∧ delegatedOk (acks.map Effect.Send) = []
      ∧ received (acks.map Effect.Send) = []
      ∧ delegated (acks.map Effect.Send) = [] := by
  induction acks with
  | nil => simp [acksSent, closed, forwardedTo, delegatedOk, received, delegated]
  | cons a rest ih =>
    simp only [List.map_cons, acksSent, closed, forwardedTo, delegatedOk, received, delegated,
      List.filterMap_cons] at ih ⊢
    simp [ih]

theorem deferred_effects (fs : List (Nat × ForwardingStream)) :
    acksSent (fs.map (fun p => Effect.CloseSend p.1 p.2.closeResult)) = []
      ∧ closed (fs.map (fun p => Effect.CloseSend p.1 p.2.closeResult)) = fs.map Prod.fst
      ∧ (∀ i, forwardedTo i (fs.map (fun p => Effect.CloseSend p.1 p.2.closeResult)) = [])
      ∧ delegatedOk (fs.map (fun p => Effect.CloseSend p.1 p.2.closeResult)) = []
      ∧ received (fs.map (fun p => Effect.CloseSend p.1 p.2.closeResult)) = []
      ∧ delegated (fs.map (fun p => Effect.CloseSend p.1 p.2.closeResult)) = [] := by
  induction fs with
  | nil => simp [acksSent, closed, forwardedTo, delegatedOk, received, delegated]
  | cons a rest ih =>
    simp only [List.map_cons, acksSent, closed, forwardedTo, delegatedOk, received, delegated,
      List.filterMap_cons] at ih ⊢
    simp [ih]

/-- The requests whose delegation succeeded, and the requests received, are
the first ones of the stream, in arrival order. -/
theorem recvLoop_prefix {χ : Type} (s : BuildEventProtocolServer χ) (closing : error)
    (events : List PublishBuildToolEventStreamRequest) :
    ∀ l : Locals χ, delegatedOk (recvLoop s closing events l).2 <+: events
      ∧ received (recvLoop s closing events l).2 <+: events := by
  induction events with
  | nil => intro l; rw [recvLoop_nil]; simp [delegatedOk, received]
  | cons inp rest ih =>
    intro l
    have hq := loopBody_quiet s l inp
    have hd := loopBody_delegated s l inp
    have e1 : ∀ tl : List Effect,
        delegatedOk (Effect.Recv (some inp) none :: tl) = delegatedOk tl := by
      intro tl; simp [delegatedOk]
    have e2 : ∀ tl : List Effect,
        received (Effect.Recv (some inp) none :: tl) = inp :: received tl := by
      intro tl; simp [received]
    rcases step_cases (loopBody s l inp).1 with ⟨l', h⟩ | ⟨err, h⟩ | h
    · rw [recvLoop_cons_next s closing inp rest l l' h, List.cons_append, e1, e2,
        delegatedOk_append, received_append, (hd.2.1 l' h).1, hq.2.1]
      have := ih l'
      exact ⟨by simpa using (List.prefix_cons_inj inp).2 this.1,
        by simpa using (List.prefix_cons_inj inp).2 this.2⟩
    · rw [recvLoop_cons_returned s closing inp rest l err h, e1, e2, hq.2.1]
      refine ⟨?_, ⟨rest, rfl⟩⟩
      rcases hd.2.2 with h1 | h1 <;> rw [h1]
      · exact ⟨rest, rfl⟩
      · exact List.nil_prefix
    · rw [recvLoop_cons_panicked s closing inp rest l h, e1, e2, hq.2.1]
      refine ⟨?_, ⟨rest, rfl⟩⟩
      rcases hd.2.2 with h1 | h1 <;> rw [h1]
      · exact ⟨rest, rfl⟩
      · exact List.nil_prefix

/-! ## Lemmas: what the client sees -/

theorem finish_withoutStreams {χ : Type} (ex : LoopExit χ) :
    finish ex.withoutStreams = finish ex := by
  cases ex <;> rfl

/-- The call in terms of the end of the receive loop. -/
theorem PublishBuildToolEventStream_eq {χ : Type} (s : BuildEventProtocolServer χ)
    (stream : ServerStream) (ex : LoopExit χ) (tr : List Effect)
    (hl : recvLoop s stream.closing stream.incoming
          { acks := [], streamID := none, channel := none,
            forwardingStreams := (connectProxies s.GetBuildEventProxyClients 0).1 } = (ex, tr)) :
    s.PublishBuildToolEventStream stream
      = ((finish ex).1,
          (connectProxies s.GetBuildEventProxyClients 0).2 ++ tr
            ++ (finish ex).2.map Effect.Send
            ++ (connectProxies s.GetBuildEventProxyClients 0).1.reverse.map
                (fun p => Effect.CloseSend p.1 p.2.closeResult)) := by
  unfold BuildEventProtocolServer.PublishBuildToolEventStream
  cases ex with
  | panicked => simp [hl, finish]
  | returned err => simp [hl, finish]
  | broke l =>
    by_cases hchk : acksInOrder (l.acks.insertionSort (· ≤ ·)) 0 = false
    · simp [hl, finish, hchk]
    · simp [hl, finish, hchk, Function.comp_def]

/-- How the call ends and what it acknowledges, read off the end of the receive loop. -/
theorem PublishBuildToolEventStream_finish {χ : Type} (s : BuildEventProtocolServer χ)
    (stream : ServerStream) :
    ((s.PublishBuildToolEventStream stream).1, acksSent (s.PublishBuildToolEventStream stream).2)
      = finish (recvLoop s stream.closing stream.incoming
          { acks := [], streamID := none, channel := none,
            forwardingStreams := (connectProxies s.GetBuildEventProxyClients 0).1 }).1 := by
  have hq := recvLoop_quiet s stream.closing stream.incoming
    { acks := [], streamID := none, channel := none,
      forwardingStreams := (connectProxies s.GetBuildEventProxyClients 0).1 }
  have hc := connectProxies_quiet s.GetBuildEventProxyClients 0
  have hd := deferred_effects (connectProxies s.GetBuildEventProxyClients 0).1.reverse
  rcases hl : recvLoop s stream.closing stream.incoming
      { acks := [], streamID := none, channel := none,
        forwardingStreams := (connectProxies s.GetBuildEventProxyClients 0).1 } with ⟨ex, tr⟩
  rw [hl] at hq
  have ha := acks_effects (finish ex).2
  rw [PublishBuildToolEventStream_eq s stream ex tr hl]
  simp only [acksSent_append, hc.1, hq.1, ha.1, hd.1, List.nil_append, List.append_nil]

/-- The body of the loop, seen without the forwarding streams, does not depend on them
nor on the proxy clients. -/
theorem loopBody_withoutStreams {χ : Type} (s₁ s₂ : BuildEventProtocolServer χ)
    (hO : s₁.OpenChannel = s₂.OpenChannel) (hH : s₁.HandleEvent = s₂.HandleEvent)
    (l₁ l₂ : Locals χ) (hl : l₁.withoutStreams = l₂.withoutStreams)
    (inp : PublishBuildToolEventStreamRequest) :
    (loopBody s₁ l₁ inp).1.withoutStreams = (loopBody s₂ l₂ inp).1.withoutStreams := by
  obtain ⟨acks₁, sid₁, ch₁, fs₁⟩ := l₁
  obtain ⟨acks₂, sid₂, ch₂, fs₂⟩ := l₂
  simp only [Locals.withoutStreams, Locals.mk.injEq, and_true] at hl
  obtain ⟨rfl, rfl, rfl⟩ := hl
  have hopen : ∀ fs fs', openOnFirst s₁ ⟨acks₁, sid₁, ch₁, fs⟩ inp
      = openOnFirst s₂ ⟨acks₁, sid₁, ch₁, fs'⟩ inp := by
    intro fs fs'
    simp only [openOnFirst, hO]
  simp only [loopBody, hopen fs₁ fs₂, hH]
  cases openOnFirst s₂ ⟨acks₁, sid₁, ch₁, fs₂⟩ inp with
  | none => rfl
  | some t =>
    obtain ⟨sid, c, opened⟩ := t
    simp only
    rcases s₂.HandleEvent c inp with ⟨c', _ | err⟩
    · cases inp.OrderedBuildEvent <;> rfl
    · rfl

/-- The end of the receive loop, seen without the forwarding streams, does not
depend on them nor on the proxy clients. -/
theorem recvLoop_withoutStreams {χ : Type} (s₁ s₂ : BuildEventProtocolServer χ)
    (hO : s₁.OpenChannel = s₂.OpenChannel) (hH : s₁.HandleEvent = s₂.HandleEvent)
    (closing : error) (events : List PublishBuildToolEventStreamRequest) :
    ∀ l₁ l₂ : Locals χ, l₁.withoutStreams = l₂.withoutStreams →
      (recvLoop s₁ closing events l₁).1.withoutStreams
        = (recvLoop s₂ closing events l₂).1.withoutStreams := by
  induction events with
  | nil =>
    intro l₁ l₂ hl
    by_cases h : closing = io.EOF <;> simp [recvLoop, h, LoopExit.withoutStreams, hl]
  | cons inp rest ih =>
    intro l₁ l₂ hl
    have hb := loopBody_withoutStreams s₁ s₂ hO hH l₁ l₂ hl inp
    rcases step_cases (loopBody s₁ l₁ inp).1 with ⟨l₁', h₁⟩ | ⟨err, h₁⟩ | h₁
    · rcases step_cases (loopBody s₂ l₂ inp).1 with ⟨l₂', h₂⟩ | ⟨err₂, h₂⟩ | h₂
      · rw [recvLoop_cons_next s₁ closing inp rest l₁ l₁' h₁,
          recvLoop_cons_next s₂ closing inp rest l₂ l₂' h₂]
        rw [h₁, h₂] at hb
        simp only [Step.withoutStreams, Step.next.injEq] at hb
        exact ih l₁' l₂' hb
      · rw [h₁, h₂] at hb; simp [Step.withoutStreams] at hb
      · rw [h₁, h₂] at hb; simp [Step.withoutStreams] at hb
    · rcases step_cases (loopBody s₂ l₂ inp).1 with ⟨l₂', h₂⟩ | ⟨err₂, h₂⟩ | h₂
      · rw [h₁, h₂] at hb; simp [Step.withoutStreams] at hb
      · rw [recvLoop_cons_returned s₁ closing inp rest l₁ err h₁,
          recvLoop_cons_returned s₂ closing inp rest l₂ err₂ h₂]
        rw [h₁, h₂] at hb
        simp only [Step.withoutStreams, Step.returned.injEq] at hb
        simp [LoopExit.withoutStreams, hb]
      · rw [h₁, h₂] at hb; simp [Step.withoutStreams] at hb
    · rcases step_cases (loopBody s₂ l₂ inp).1 with ⟨l₂', h₂⟩ | ⟨err₂, h₂⟩ | h₂
      · rw [h₁, h₂] at hb; simp [Step.withoutStreams] at hb
      · rw [h₁, h₂] at hb; simp [Step.withoutStreams] at hb
      · rw [recvLoop_cons_panicked s₁ closing inp rest l₁ h₁,
          recvLoop_cons_panicked s₂ closing inp rest l₂ h₂]

/-! ## Lemmas: the sequence check -/

theorem acksInOrder_range (n : Nat) :
    ∀ i, acksInOrder ((List.range' (i + 1) n).map (fun (k : Nat) => (k : Int))) i = true := by
  induction n with
  | zero => intro i; rfl
  | succ n ih =>
    intro i
    simp only [List.range'_succ, List.map_cons, acksInOrder]
    have : ((i + 1 : Nat) : Int) = (i : Int) + 1 := by push_cast; rfl
    simp [this, ih (i + 1)]

theorem acksInOrder_eq (acks : List Int) :
    ∀ i, acksInOrder acks i = true →
      acks = (List.range' (i + 1) acks.length).map (fun (k : Nat) => (k : Int)) := by
  induction acks with
  | nil => intro i _; rfl
  | cons ack rest ih =>
    intro i h
    simp only [acksInOrder] at h
    by_cases hne : ack ≠ (i : Int) + 1
    · simp [hne] at h
    · simp only [hne, if_false] at h
      have hack : ack = ((i + 1 : Nat) : Int) := by push_cast; exact not_not.1 hne
      have := ih (i + 1) h
      simp only [List.length_cons, List.range'_succ, List.map_cons]
      rw [← this, hack]

theorem oneTo_sorted (N : Nat) : (oneTo N).Sorted (· ≤ ·) := by
  unfold oneTo
  have h := List.pairwise_lt_range' 1 N
  exact (List.pairwise_map.2 (h.imp (fun {a b} hab => by exact_mod_cast Nat.le_of_lt hab)))

/-- Sorting a permutation of `1..N` gives `1..N`. -/
theorem insertionSort_of_perm_oneTo (acks : List Int) (N : Nat) (h : acks.Perm (oneTo N)) :
    acks.insertionSort (· ≤ ·) = oneTo N :=
  List.eq_of_perm_of_sorted ((List.perm_insertionSort _ acks).trans h)
    (List.sorted_insertionSort _ acks) (oneTo_sorted N)

/-- The sequence check passes exactly on the permutations of `1..N`, `N` the number of acks. -/
theorem acksInOrder_iff_perm (acks : List Int) :
    acksInOrder (acks.insertionSort (· ≤ ·)) 0 = true ↔ acks.Perm (oneTo acks.length) := by
  constructor
  · intro h
    have := acksInOrder_eq _ 0 h
    rw [List.length_insertionSort] at this
    have hp := (List.perm_insertionSort (· ≤ ·) acks).symm
    rw [this] at hp
    exact hp
  · intro h
    rw [insertionSort_of_perm_oneTo acks acks.length h]
    exact acksInOrder_range acks.length 0

/-! ## Lemmas: a stream whose delegations all succeed -/

theorem loopBody_ok {χ : Type} (s : BuildEventProtocolServer χ) (l : Locals χ)
    (inp : PublishBuildToolEventStreamRequest) (sid : StreamId) (c : χ) (opened : List Effect)
    (obe : OrderedBuildEvent)
    (ho : openOnFirst s l inp = some (sid, c, opened))
    (hh : (s.HandleEvent c inp).2 = none) (hobe : inp.OrderedBuildEvent = some obe) :
    (loopBody s l inp).1 = Step.next
      { acks := l.acks ++ [obe.SequenceNumber]
        streamID := some sid
        channel := some (s.HandleEvent c inp).1
        forwardingStreams := (forwardAll inp l.forwardingStreams).1 } := by
  rcases hp : s.HandleEvent c inp with ⟨c', o⟩
  rw [hp] at hh
  simp only at hh
  subst hh
  simp [loopBody, ho, hp, hobe]

/-- Once the stream id is set, a run of requests that carry ordered build
events and whose delegations succeed ends at the `break`, with their sequence
numbers appended to the acks. -/
theorem recvLoop_ok {χ : Type} (s : BuildEventProtocolServer χ) (sid : StreamId)
    (events : List PublishBuildToolEventStreamRequest) :
    ∀ (c : χ) (l : Locals χ), l.streamID = some sid → l.channel = some c →
      (∀ inp ∈ events, inp.OrderedBuildEvent.isSome = true) →
      (∀ o ∈ delegations s c events, o = none) →
      ∃ l', (recvLoop s io.EOF events l).1 = LoopExit.broke l'
        ∧ l'.acks.map some = l.acks.map some ++ sequenceNumbers events
        ∧ l'.streamID = some sid := by
  induction events with
  | nil =>
    intro c l hs _ _ _
    exact ⟨l, by simp [recvLoop], by simp [sequenceNumbers], hs⟩
  | cons inp rest ih =>
    intro c l hs hc hobe hdel
    obtain ⟨obe, hobe'⟩ := Option.isSome_iff_exists.1 (hobe inp (List.mem_cons_self _ _))
    have ho : openOnFirst s l inp = some (sid, c, []) := by simp [openOnFirst, hs, hc]
    have hh : (s.HandleEvent c inp).2 = none := hdel _ (by simp [delegations])
    have hb := loopBody_ok s l inp sid c [] obe ho hh hobe'
    obtain ⟨l', h1, h2, h3⟩ := ih (s.HandleEvent c inp).1
      { acks := l.acks ++ [obe.SequenceNumber]
        streamID := some sid
        channel := some (s.HandleEvent c inp).1
        forwardingStreams := (forwardAll inp l.forwardingStreams).1 } rfl rfl
      (fun x hx => hobe x (List.mem_cons_of_mem _ hx))
      (fun o ho' => hdel o (by simp only [delegations, List.mem_cons]; exact Or.inr ho'))
    refine ⟨l', ?_, ?_, h3⟩
    · rw [recvLoop_cons_next s io.EOF inp rest l _ hb]; exact h1
    · rw [h2]; simp [sequenceNumbers, hobe']

/-- A run from the start: the first request carries the stream id `sid`, every
request carries an ordered build event, and every delegation succeeds. -/
theorem recvLoop_ok_from_start {χ : Type} (s : BuildEventProtocolServer χ) (sid : StreamId)
    (events : List PublishBuildToolEventStreamRequest) (fs : List (Nat × ForwardingStream))
    (hsid : events = [] ∨ firstStreamId events = some sid)
    (hobe : ∀ inp ∈ events, inp.OrderedBuildEvent.isSome = true)
    (hdel : ∀ o ∈ delegations s (s.OpenChannel sid.InvocationId) events, o = none) :
    ∃ l', (recvLoop s io.EOF events
        { acks := [], streamID := none, channel := none, forwardingStreams := fs }).1
          = LoopExit.broke l'
      ∧ l'.acks.map some = sequenceNumbers events
      ∧ (events = [] ∨ l'.streamID = some sid) := by
  cases events with
  | nil =>
    exact ⟨{ acks := [], streamID := none, channel := none, forwardingStreams := fs },
      by simp [recvLoop], by simp [sequenceNumbers], Or.inl rfl⟩
  | cons inp rest =>
    rcases hsid with h | hsid
    · exact absurd h (by simp)
    obtain ⟨obe, hobe'⟩ := Option.isSome_iff_exists.1 (hobe inp (List.mem_cons_self _ _))
    have hs : obe.StreamId = some sid := by
      simpa [firstStreamId, hobe'] using hsid
    have ho : openOnFirst s
        { acks := [], streamID := none, channel := none, forwardingStreams := fs } inp
        = some (sid, s.OpenChannel sid.InvocationId, [Effect.OpenChannel sid.InvocationId]) := by
      simp [openOnFirst, hobe', hs]
    have hh : (s.HandleEvent (s.OpenChannel sid.InvocationId) inp).2 = none :=
      hdel _ (by simp [delegations])
    have hb := loopBody_ok s _ inp sid _ _ obe ho hh hobe'
    obtain ⟨l', h1, h2, h3⟩ := recvLoop_ok s sid rest
      (s.HandleEvent (s.OpenChannel sid.InvocationId) inp).1
      { acks := [] ++ [obe.SequenceNumber]
        streamID := some sid
        channel := some (s.HandleEvent (s.OpenChannel sid.InvocationId) inp).1
        forwardingStreams := (forwardAll inp fs).1 } rfl rfl
      (fun x hx => hobe x (List.mem_cons_of_mem _ hx))
      (fun o ho' => hdel o (by simp only [delegations, List.mem_cons]; exact Or.inr ho'))
    refine ⟨l', ?_, ?_, Or.inr h3⟩
    · rw [recvLoop_cons_next s io.EOF inp rest _ _ hb]; exact h1
    · rw [h2]; simp [sequenceNumbers, hobe']

/-- A list of options that is a permutation of a list of `some`s has the
same values, permuted. -/
theorem perm_of_map_some_perm {α : Type} (a b : List α) (h : (a.map some).Perm (b.map some)) :
    a.Perm b := by
  have := h.filterMap id
  simpa [List.filterMap_map] using this

/-! ## Lemmas: a delegation that fails -/

/-- Splitting an append at an element that is not in the first part. -/
theorem append_split_of_not_mem {α : Type} (l₁ l₂ pre post : List α) (a : α)
    (h : l₁ ++ l₂ = pre ++ a :: post) (hn : a ∉ l₁) :
    ∃ q, pre = l₁ ++ q ∧ l₂ = q ++ a :: post := by
  rcases List.append_eq_append_iff.1 h with ⟨q, h1, h2⟩ | ⟨c, h1, h2⟩
  · exact ⟨q, h1, h2⟩
  · cases c with
    | nil => exact ⟨[], by simpa using h1.symm, by simpa using h2.symm⟩
    | cons x c' =>
      simp only [List.cons_append, List.cons.injEq] at h2
      exact absurd (h1 ▸ h2.1 ▸ List.mem_append_right pre (List.mem_cons_self _ _)) hn

/-- Splitting an append at an element that is not in the second part. -/
theorem append_split_of_not_mem_right {α : Type} (l₁ l₂ pre post : List α) (a : α)
    (h : l₁ ++ l₂ = pre ++ a :: post) (hn : a ∉ l₂) :
    ∃ q, l₁ = pre ++ a :: q ∧ post = q ++ l₂ := by
  rcases List.append_eq_append_iff.1 h with ⟨q, h1, h2⟩ | ⟨c, h1, h2⟩
  · exact absurd (h2 ▸ List.mem_append_right q (List.mem_cons_self _ _)) hn
  · cases c with
    | nil =>
      simp only [List.nil_append] at h2
      exact absurd (h2 ▸ List.mem_cons_self _ _) hn
    | cons x c' =>
      simp only [List.cons_append, List.cons.injEq] at h2
      exact ⟨c', by rw [h1, h2.1], h2.2⟩

theorem connectProxies_no_delegation (clients : List ProxyClient)
    (inp : PublishBuildToolEventStreamRequest) (err : Option error) :
    ∀ k, Effect.HandleEvent inp err ∉ (connectProxies clients k).2 := by
  induction clients with
  | nil => intro k; simp [connectProxies]
  | cons client rest ih =>
    intro k
    cases hc : client.PublishBuildToolEventStream with
    | error e => simp [connectProxies, hc, ih (k + 1)]
    | ok stream => simp [connectProxies, hc, ih (k + 1)]

theorem forwardAll_no_delegation (inp inp' : PublishBuildToolEventStreamRequest)
    (err : Option error) (fs : List (Nat × ForwardingStream)) :
    Effect.HandleEvent inp' err ∉ (forwardAll inp fs).2 := by
  intro h
  obtain ⟨j, e, he⟩ := forwardAll_effects inp fs _ h
  exact Effect.noConfusion he

/-- Where a failed delegation can stand in the trace of the loop body: only at
its end, and only when the body returns that error. -/
theorem loopBody_failed {χ : Type} (s : BuildEventProtocolServer χ) (l : Locals χ)
    (inp₀ inp : PublishBuildToolEventStreamRequest) (e : error) :
    (∀ l', (loopBody s l inp₀).1 = Step.next l' →
        Effect.HandleEvent inp (some e) ∉ (loopBody s l inp₀).2
        ∧ delegated (loopBody s l inp₀).2 = [inp₀])
    ∧ ((loopBody s l inp₀).1 = Step.panicked →
        Effect.HandleEvent inp (some e) ∉ (loopBody s l inp₀).2)
    ∧ (∀ err, (loopBody s l inp₀).1 = Step.returned err →
        ∃ opened, (loopBody s l inp₀).2 = opened ++ [Effect.HandleEvent inp₀ (some err)]
          ∧ Effect.HandleEvent inp (some e) ∉ opened ∧ delegated opened = []) := by
  have hno := forwardAll_no_delegation inp₀ inp (some e) l.forwardingStreams
  have hf := only_forward_sends _ inp₀ (forwardAll_effects inp₀ l.forwardingStreams)
  rcases loopBody_cases s l inp₀ with ⟨_, h⟩ | ⟨sid, c, opened, err, ho, _, h⟩
    | ⟨sid, c, opened, ho, _, _, h⟩ | ⟨sid, c, opened, obe, ho, _, _, h⟩
  · rw [h]; simp
  · rw [h]
    refine ⟨by simp, by simp, ?_⟩
    intro err' herr
    simp only [Step.returned.injEq] at herr
    subst herr
    refine ⟨opened, rfl, ?_⟩
    rcases openOnFirst_effects s l inp₀ sid c opened ho with rfl | ⟨inv, rfl⟩ <;>
      simp [delegated]
  · rw [h]
    refine ⟨by simp, ?_, by simp⟩
    intro _
    rcases openOnFirst_effects s l inp₀ sid c opened ho with rfl | ⟨inv, rfl⟩ <;>
      simp [hno]
  · rw [h]
    refine ⟨?_, by simp, by simp⟩
    intro l' _
    have hd : delegated (forwardAll inp₀ l.forwardingStreams).2 = [] := hf.2.2.1
    rcases openOnFirst_effects s l inp₀ sid c opened ho with rfl | ⟨inv, rfl⟩
    · refine ⟨by simp [hno], ?_⟩
      simp only [List.nil_append, delegated, List.filterMap_cons] at hd ⊢
      rw [hd]
    · refine ⟨by simp [hno], ?_⟩
      simp only [List.singleton_append, delegated, List.filterMap_cons] at hd ⊢
      rw [hd]

/-- A failed delegation is the last effect of the receive loop, which then
returns its error; before it, the requests received are those delegated
earlier and the failing one, the first requests of the stream. -/
theorem recvLoop_failed {χ : Type} (s : BuildEventProtocolServer χ) (closing : error)
    (inp : PublishBuildToolEventStreamRequest) (e : error)
    (events : List PublishBuildToolEventStreamRequest) :
    ∀ (l : Locals χ) (pre post : List Effect),
      (recvLoop s closing events l).2 = pre ++ Effect.HandleEvent inp (some e) :: post →
      post = [] ∧ (recvLoop s closing events l).1 = LoopExit.returned e
        ∧ received pre = delegated pre ++ [inp]
        ∧ (delegated pre ++ [inp]) <+: events := by
  induction events with
  | nil =>
    intro l pre post h
    rw [recvLoop_nil] at h
    cases pre with
    | nil => simp at h
    | cons x pre' =>
      simp only [List.cons_append, List.cons.injEq] at h
      exact absurd h.2 (by simp)
  | cons inp₀ rest ih =>
    intro l pre post h
    have hq := loopBody_quiet s l inp₀
    have hf := loopBody_failed s l inp₀ inp e
    have hsplit : ∀ tl : List Effect,
        Effect.Recv (some inp₀) none :: tl = pre ++ Effect.HandleEvent inp (some e) :: post →
        ∃ pre', pre = Effect.Recv (some inp₀) none :: pre'
          ∧ tl = pre' ++ Effect.HandleEvent inp (some e) :: post := by
      intro tl htl
      cases pre with
      | nil => simp at htl
      | cons x pre' =>
        simp only [List.cons_append, List.cons.injEq] at htl
        exact ⟨pre', by rw [htl.1], htl.2⟩
    rcases step_cases (loopBody s l inp₀).1 with ⟨l', hs⟩ | ⟨err, hs⟩ | hs
    · rw [recvLoop_cons_next s closing inp₀ rest l l' hs] at h ⊢
      simp only [List.cons_append] at h
      obtain ⟨pre', rfl, h'⟩ := hsplit _ h
      obtain ⟨q, rfl, hq'⟩ := append_split_of_not_mem _ _ _ _ _ h' (hf.1 l' hs).1
      obtain ⟨h1, h2, h3, h4⟩ := ih l' q post hq'
      refine ⟨h1, h2, ?_, ?_⟩
      · have : received (Effect.Recv (some inp₀) none :: ((loopBody s l inp₀).2 ++ q))
            = inp₀ :: received q := by
          rw [← List.singleton_append, received_append, received_append, hq.2.1]
          simp [received]
        rw [this, h3]
        have : delegated (Effect.Recv (some inp₀) none :: ((loopBody s l inp₀).2 ++ q))
            = inp₀ :: delegated q := by
          rw [← List.singleton_append, delegated_append, delegated_append, (hf.1 l' hs).2]
          simp [delegated]
        rw [this]; rfl
      · have : delegated (Effect.Recv (some inp₀) none :: ((loopBody s l inp₀).2 ++ q))
            = inp₀ :: delegated q := by
          rw [← List.singleton_append, delegated_append, delegated_append, (hf.1 l' hs).2]
          simp [delegated]
        rw [this]
        exact (List.prefix_cons_inj inp₀).2 h4
    · rw [recvLoop_cons_returned s closing inp₀ rest l err hs] at h ⊢
      obtain ⟨pre', rfl, h'⟩ := hsplit _ h
      obtain ⟨opened, hb, hno, hdel⟩ := hf.2.2 err hs
      rw [hb] at h'
      obtain ⟨q, rfl, hq'⟩ := append_split_of_not_mem _ _ _ _ _ h' hno
      have hq0 : q = [] ∧ inp₀ = inp ∧ err = e ∧ post = [] := by
        cases q with
        | nil => simpa [and_assoc] using hq'
        | cons x q' =>
          simp only [List.cons_append, List.cons.injEq] at hq'
          exact absurd hq'.2 (by simp)
      obtain ⟨rfl, rfl, rfl, rfl⟩ := hq0
      have hrec : received opened = [] := by
        have := hq.2.1
        rw [hb, received_append] at this
        exact (List.append_eq_nil.1 this).1
      refine ⟨rfl, rfl, ?_, ?_⟩
      · rw [List.append_nil, ← List.singleton_append, received_append, delegated_append,
          hrec, hdel]
        simp [received, delegated]
      · rw [List.append_nil, ← List.singleton_append, delegated_append, hdel]
        simp [delegated]
    · rw [recvLoop_cons_panicked s closing inp₀ rest l hs] at h
      obtain ⟨pre', rfl, h'⟩ := hsplit _ h
      exact absurd (h' ▸ List.mem_append_right pre' (List.mem_cons_self _ _)) (hf.2.1 hs)

/-! ## Theorems: `build_event_server.go` -/

/-- C10: on every way the call ends (acknowledgments sent, sequence check
failed, delegation error, receive error, nil pointer), every proxy client whose
forwarding stream opened has `CloseSend` called on it exactly once, and a
client whose stream did not open is neither closed nor sent to. -/
theorem C10_forwarding_streams_closed_once {χ : Type} (s : BuildEventProtocolServer χ)
    (stream : ServerStream) (i : Nat) :
    (closed (s.PublishBuildToolEventStream stream).2).count i = (if s.opens i then 1 else 0)
    ∧ (s.opens i = true ∨ forwardedTo i (s.PublishBuildToolEventStream stream).2 = []) := by
  obtain ⟨acks, htr⟩ := PublishBuildToolEventStream_trace s stream
  have hq := recvLoop_quiet s stream.closing stream.incoming
    { acks := [], streamID := none, channel := none,
      forwardingStreams := (connectProxies s.GetBuildEventProxyClients 0).1 }
  have hfw := recvLoop_forwarded s stream.closing i stream.incoming
    { acks := [], streamID := none, channel := none,
      forwardingStreams := (connectProxies s.GetBuildEventProxyClients 0).1 }
    (connectProxies_nodup _ 0)
  have hc := connectProxies_quiet s.GetBuildEventProxyClients 0
  have ha := acks_effects acks
  have hd := deferred_effects (connectProxies s.GetBuildEventProxyClients 0).1.reverse
  have hmem := connectProxies_mem s.GetBuildEventProxyClients 0 i
  have hnd := connectProxies_nodup s.GetBuildEventProxyClients 0
  simp only [Nat.zero_le, true_and, Nat.sub_zero] at hmem
  have hclosed : closed (s.PublishBuildToolEventStream stream).2
      = ((connectProxies s.GetBuildEventProxyClients 0).1.map Prod.fst).reverse := by
    rw [htr, closed_append, closed_append, closed_append, hc.2.1, hq.2, ha.2.1, hd.2.1,
      List.map_reverse]
    rfl
  have hforw : forwardedTo i (s.PublishBuildToolEventStream stream).2
      = if i ∈ (connectProxies s.GetBuildEventProxyClients 0).1.map Prod.fst then
          delegatedOk (recvLoop s stream.closing stream.incoming
            { acks := [], streamID := none, channel := none,
              forwardingStreams := (connectProxies s.GetBuildEventProxyClients 0).1 }).2
        else [] := by
    rw [htr]
    simp only [forwardedTo_append, hc.2.2.1 i, ha.2.2.1 i, hd.2.2.1 i, List.nil_append,
      List.append_nil]
    exact hfw
  rw [hclosed, hforw, List.count_reverse]
  by_cases ho : s.opens i = true
  · have hi : i ∈ (connectProxies s.GetBuildEventProxyClients 0).1.map Prod.fst := hmem.2 ho
    exact ⟨by rw [if_pos ho, List.count_eq_one_of_mem hnd hi], Or.inl ho⟩
  · have hi : i ∉ (connectProxies s.GetBuildEventProxyClients 0).1.map Prod.fst :=
      fun h => ho (hmem.1 h)
    exact ⟨by rw [if_neg ho, List.count_eq_zero_of_not_mem hi], Or.inr (if_neg hi)⟩

/-- C9 refuted as stated: with one proxy client connected and a channel that
fails on the first event, the event is received but nothing is sent on the
forwarding stream. -/
theorem C9_counterexample :
    (failingServer 0).opens 0 = true
    ∧ received ((failingServer 0).PublishBuildToolEventStream ⟨[exampleEvent 1], io.EOF⟩).2
        = [exampleEvent 1]
    ∧ forwardedTo 0 ((failingServer 0).PublishBuildToolEventStream ⟨[exampleEvent 1], io.EOF⟩).2
        = [] := by
  decide

/-- C9 as amended: on every forwarding stream that opened, the requests sent
are exactly the received requests whose delegation succeeded, each once,
unmodified and in arrival order; nothing is sent for a client whose stream did
not open; and those requests are the first ones of the client stream. -/
theorem C9_forwards_what_was_delegated {χ : Type} (s : BuildEventProtocolServer χ)
    (stream : ServerStream) (i : Nat) :
    forwardedTo i (s.PublishBuildToolEventStream stream).2
      = (if s.opens i then delegatedOk (s.PublishBuildToolEventStream stream).2 else [])
    ∧ delegatedOk (s.PublishBuildToolEventStream stream).2 <+: stream.incoming := by
  obtain ⟨acks, htr⟩ := PublishBuildToolEventStream_trace s stream
  have hfw := recvLoop_forwarded s stream.closing i stream.incoming
    { acks := [], streamID := none, channel := none,
      forwardingStreams := (connectProxies s.GetBuildEventProxyClients 0).1 }
    (connectProxies_nodup _ 0)
  have hpre := recvLoop_prefix s stream.closing stream.incoming
    { acks := [], streamID := none, channel := none,
      forwardingStreams := (connectProxies s.GetBuildEventProxyClients 0).1 }
  have hc := connectProxies_quiet s.GetBuildEventProxyClients 0
  have ha := acks_effects acks
  have hd := deferred_effects (connectProxies s.GetBuildEventProxyClients 0).1.reverse
  have hmem := connectProxies_mem s.GetBuildEventProxyClients 0 i
  simp only [Nat.zero_le, true_and, Nat.sub_zero] at hmem
  have hdel : delegatedOk (s.PublishBuildToolEventStream stream).2
      = delegatedOk (recvLoop s stream.closing stream.incoming
            { acks := [], streamID := none, channel := none,
              forwardingStreams := (connectProxies s.GetBuildEventProxyClients 0).1 }).2 := by
    rw [htr, delegatedOk_append, delegatedOk_append, delegatedOk_append, hc.2.2.2.1,
      ha.2.2.2.1, hd.2.2.2.1]
    simp
  have hforw : forwardedTo i (s.PublishBuildToolEventStream stream).2
      = forwardedTo i (recvLoop s stream.closing stream.incoming
            { acks := [], streamID := none, channel := none,
              forwardingStreams := (connectProxies s.GetBuildEventProxyClients 0).1 }).2 := by
    rw [htr, forwardedTo_append, forwardedTo_append, forwardedTo_append, hc.2.2.1 i,
      ha.2.2.1 i, hd.2.2.1 i]
    simp
  rw [hdel, hforw, hfw]
  refine ⟨?_, hpre.1⟩
  by_cases ho : s.opens i = true
  · rw [if_pos (hmem.2 ho), if_pos ho]
  · rw [if_neg (fun h => ho (hmem.1 h)), if_neg ho]

/-- C8: for every client stream and every processing session, replacing the
proxy clients of the server by any other list of proxy clients (other targets,
other connection failures, other forwarding `Send` failures) changes neither
how the call ends nor the sequence of acknowledgments sent to the client. -/
theorem C8_proxies_do_not_interfere {χ : Type} (s : BuildEventProtocolServer χ)
    (proxies : List ProxyClient) (stream : ServerStream) :
    (({ s with GetBuildEventProxyClients := proxies } :
        BuildEventProtocolServer χ).PublishBuildToolEventStream stream).1
      = (s.PublishBuildToolEventStream stream).1
    ∧ acksSent (({ s with GetBuildEventProxyClients := proxies } :
        BuildEventProtocolServer χ).PublishBuildToolEventStream stream).2
      = acksSent (s.PublishBuildToolEventStream stream).2 := by
  have h₁ := PublishBuildToolEventStream_finish
    ({ s with GetBuildEventProxyClients := proxies } : BuildEventProtocolServer χ) stream
  have h₂ := PublishBuildToolEventStream_finish s stream
  have hw := recvLoop_withoutStreams
    ({ s with GetBuildEventProxyClients := proxies } : BuildEventProtocolServer χ) s rfl rfl
    stream.closing stream.incoming
    { acks := [], streamID := none, channel := none,
      forwardingStreams := (connectProxies proxies 0).1 }
    { acks := [], streamID := none, channel := none,
      forwardingStreams := (connectProxies s.GetBuildEventProxyClients 0).1 } rfl
  rw [← finish_withoutStreams] at h₁ h₂
  rw [hw] at h₁
  have := h₁.trans h₂.symm
  exact ⟨(Prod.mk.inj this).1, (Prod.mk.inj this).2⟩

/-- C1 refuted as stated: the one event with sequence number `1` and no stream
id is a stream whose sequence numbers are a permutation of `1..1`; the server
accepts every event and the client ends input cleanly; yet the call does not
return `nil`: line 80 reads `streamID.InvocationId` through a nil pointer, the
handler panics, and no acknowledgment is sent. -/
theorem C1_counterexample :
    (sequenceNumbers [eventWithoutStreamId 1]).Perm ((oneTo 1).map some)
    ∧ (∀ c : Nat, ∀ o ∈ delegations acceptingServer c [eventWithoutStreamId 1], o = none)
    ∧ (acceptingServer.PublishBuildToolEventStream ⟨[eventWithoutStreamId 1], io.EOF⟩).1
        = Outcome.panicked
    ∧ (acceptingServer.PublishBuildToolEventStream ⟨[eventWithoutStreamId 1], io.EOF⟩).1
        ≠ Outcome.returned none
    ∧ acksSent
        (acceptingServer.PublishBuildToolEventStream ⟨[eventWithoutStreamId 1], io.EOF⟩).2
        = [] := by
  refine ⟨by decide, ?_, by decide, by decide, by decide⟩
  intro c o ho
  simpa [delegations, acceptingServer] using ho

/-- C1 as amended: for every `N` and every stream of `N` events whose sequence numbers
are, in any arrival order, a permutation of `1..N`, when every delegation to
the processing session succeeds and the client ends input cleanly, the call
returns `nil` and the acknowledgments sent are exactly those with sequence
numbers `1, 2, ..., N` in this order, each with the stream id `sid` taken from
the first received event, provided the first received event carries a stream
id (`sid`). -/
theorem C1_complete_stream_acked_in_order {χ : Type} (s : BuildEventProtocolServer χ)
    (events : List PublishBuildToolEventStreamRequest) (N : Nat) (sid : StreamId)
    (hseq : (sequenceNumbers events).Perm ((oneTo N).map some))
    (hsid : events = [] ∨ firstStreamId events = some sid)
    (hdeleg : ∀ o ∈ delegations s (s.OpenChannel sid.InvocationId) events, o = none) :
    (s.PublishBuildToolEventStream ⟨events, io.EOF⟩).1 = Outcome.returned none
    ∧ acksSent (s.PublishBuildToolEventStream ⟨events, io.EOF⟩).2
        = (oneTo N).map (fun n => { StreamId := some sid, SequenceNumber := n }) := by
  have hobe : ∀ inp ∈ events, inp.OrderedBuildEvent.isSome = true := by
    intro inp hinp
    have hm : inp.OrderedBuildEvent.map (fun obe => obe.SequenceNumber) ∈ sequenceNumbers events :=
      List.mem_map.2 ⟨inp, hinp, rfl⟩
    obtain ⟨n, -, hn⟩ := List.mem_map.1 (hseq.subset hm)
    cases h : inp.OrderedBuildEvent with
    | none => rw [h] at hn; simp at hn
    | some obe => rfl
  obtain ⟨l', hl, hacks, hstream⟩ := recvLoop_ok_from_start s sid events
    (connectProxies s.GetBuildEventProxyClients 0).1 hsid hobe hdeleg
  have hperm : l'.acks.Perm (oneTo N) := perm_of_map_some_perm _ _ (hacks ▸ hseq)
  have hsort := insertionSort_of_perm_oneTo l'.acks N hperm
  have hfin := PublishBuildToolEventStream_finish s ⟨events, io.EOF⟩
  simp only at hfin
  rw [hl] at hfin
  have hchk : acksInOrder (oneTo N) 0 = true := acksInOrder_range N 0
  simp only [finish, hsort, hchk, Bool.true_eq_false, if_false] at hfin
  refine ⟨(Prod.mk.inj hfin).1, ?_⟩
  rw [(Prod.mk.inj hfin).2]
  rcases hstream with rfl | hst
  · have hN : N = 0 := by
      have := hseq.length_eq
      simpa [sequenceNumbers, oneTo] using this.symm
    subst hN
    simp [oneTo]
  · rw [hst]

/-- Witness of C1: the events with sequence numbers `2, 1` on a server that
accepts every event. -/
theorem C1_complete_stream_acked_in_order_witness :
    (acceptingServer.PublishBuildToolEventStream ⟨[exampleEvent 2, exampleEvent 1], io.EOF⟩).1
      = Outcome.returned none
    ∧ acksSent
        (acceptingServer.PublishBuildToolEventStream ⟨[exampleEvent 2, exampleEvent 1], io.EOF⟩).2
        = (oneTo 2).map (fun n => { StreamId := some exampleStreamId, SequenceNumber := n }) :=
  C1_complete_stream_acked_in_order acceptingServer [exampleEvent 2, exampleEvent 1] 2
    exampleStreamId (by decide) (Or.inr rfl) (by decide)

/-- C2 refuted as stated: the one event with sequence number `2` is not the
stream `1..1`, the client ends input cleanly, and the delegation fails with the
error `broken build`; the call returns that error, not `io.EOF`. -/
theorem C2_counterexample :
    ¬ (sequenceNumbers [exampleEvent 2]).Perm ((oneTo 1).map some)
    ∧ ((failingServer 0).PublishBuildToolEventStream ⟨[exampleEvent 2], io.EOF⟩).1
        = Outcome.returned (some (error.other "broken build"))
    ∧ ((failingServer 0).PublishBuildToolEventStream ⟨[exampleEvent 2], io.EOF⟩).1
        ≠ Outcome.returned (some io.EOF) := by
  decide

/-- C2 as amended: for every stream of `N` events, each carrying an ordered
build event and the first the stream id `sid`, that ends cleanly and whose
delegations all succeed, if the sequence numbers are not a permutation of
`1..N` then no acknowledgment is sent and the call returns `io.EOF`. -/
theorem C2_incomplete_stream_gets_no_acks {χ : Type} (s : BuildEventProtocolServer χ)
    (events : List PublishBuildToolEventStreamRequest) (sid : StreamId)
    (hobe : ∀ inp ∈ events, inp.OrderedBuildEvent.isSome = true)
    (hsid : firstStreamId events = some sid)
    (hdeleg : ∀ o ∈ delegations s (s.OpenChannel sid.InvocationId) events, o = none)
    (hnot : ¬ (sequenceNumbers events).Perm ((oneTo events.length).map some)) :
    (s.PublishBuildToolEventStream ⟨events, io.EOF⟩).1 = Outcome.returned (some io.EOF)
    ∧ acksSent (s.PublishBuildToolEventStream ⟨events, io.EOF⟩).2 = [] := by
  obtain ⟨l', hl, hacks, -⟩ := recvLoop_ok_from_start s sid events
    (connectProxies s.GetBuildEventProxyClients 0).1 (Or.inr hsid) hobe hdeleg
  have hlen : l'.acks.length = events.length := by
    have := congrArg List.length hacks
    simpa [sequenceNumbers] using this
  have hchk : acksInOrder (l'.acks.insertionSort (· ≤ ·)) 0 = false := by
    rw [← Bool.not_eq_true, acksInOrder_iff_perm, hlen]
    intro hp
    exact hnot (hacks ▸ hp.map some)
  have hfin := PublishBuildToolEventStream_finish s ⟨events, io.EOF⟩
  simp only at hfin
  rw [hl] at hfin
  simp only [finish, hchk, if_true] at hfin
  exact ⟨(Prod.mk.inj hfin).1, (Prod.mk.inj hfin).2⟩

/-- Witness of C2: the events with sequence numbers `1, 3` on a server that
accepts every event. -/
theorem C2_incomplete_stream_gets_no_acks_witness :
    (acceptingServer.PublishBuildToolEventStream ⟨[exampleEvent 1, exampleEvent 3], io.EOF⟩).1
      = Outcome.returned (some io.EOF)
    ∧ acksSent
        (acceptingServer.PublishBuildToolEventStream ⟨[exampleEvent 1, exampleEvent 3], io.EOF⟩).2
        = [] :=
  C2_incomplete_stream_gets_no_acks acceptingServer [exampleEvent 1, exampleEvent 3]
    exampleStreamId (by decide) rfl (by decide) (by decide)

/-- C3: for every stream, whenever a call to `channel.HandleEvent` returns an
error `e` (the trace is `pre`, then that failed delegation of `inp`, then
`post`), the call returns exactly `e`, nothing but the deferred `CloseSend`
calls follows (no later event is received or delegated), no acknowledgment is
sent, and `inp` is the last of the events received, which are the first events
of the stream, all the earlier ones having been delegated. -/
theorem C3_delegation_failure_aborts {χ : Type} (s : BuildEventProtocolServer χ)
    (stream : ServerStream) (pre post : List Effect)
    (inp : PublishBuildToolEventStreamRequest) (e : error)
    (h : (s.PublishBuildToolEventStream stream).2
        = pre ++ Effect.HandleEvent inp (some e) :: post) :
    (s.PublishBuildToolEventStream stream).1 = Outcome.returned (some e)
    ∧ acksSent (s.PublishBuildToolEventStream stream).2 = []
    ∧ (∀ a ∈ post, a.isCloseSend = true)
    ∧ received pre = delegated pre ++ [inp]
    ∧ (delegated pre ++ [inp]) <+: stream.incoming := by
  rcases hl : recvLoop s stream.closing stream.incoming
      { acks := [], streamID := none, channel := none,
        forwardingStreams := (connectProxies s.GetBuildEventProxyClients 0).1 } with ⟨ex, tr⟩
  have heq := PublishBuildToolEventStream_eq s stream ex tr hl
  have hfin := PublishBuildToolEventStream_finish s stream
  rw [hl] at hfin
  have hc := connectProxies_quiet s.GetBuildEventProxyClients 0
  rw [heq] at h
  simp only [List.append_assoc] at h
  obtain ⟨q, rfl, h'⟩ := append_split_of_not_mem _ _ _ _ _ h
    (connectProxies_no_delegation _ inp (some e) 0)
  have hnr : Effect.HandleEvent inp (some e) ∉
      (List.map Effect.Send (finish ex).2
        ++ List.map (fun p => Effect.CloseSend p.1 p.2.closeResult)
            (connectProxies s.GetBuildEventProxyClients 0).1.reverse) := by
    simp
  obtain ⟨q', htr, hpost⟩ := append_split_of_not_mem_right _ _ _ _ _ h' hnr
  have hloop := recvLoop_failed s stream.closing inp e stream.incoming
    { acks := [], streamID := none, channel := none,
      forwardingStreams := (connectProxies s.GetBuildEventProxyClients 0).1 } q q'
    (by rw [hl]; exact htr)
  rw [hl] at hloop
  obtain ⟨rfl, hex, hrec, hpre⟩ := hloop
  simp only at hex
  subst hex
  simp only [finish] at hfin hpost
  refine ⟨(Prod.mk.inj hfin).1, (Prod.mk.inj hfin).2, ?_, ?_, ?_⟩
  · intro a ha
    rw [hpost] at ha
    simp only [List.map_nil, List.nil_append, List.mem_map] at ha
    obtain ⟨p, -, rfl⟩ := ha
    rfl
  · rw [received_append, delegated_append, hc.2.2.2.2.1, hc.2.2.2.2.2]
    exact hrec
  · rw [delegated_append, hc.2.2.2.2.2]
    exact hpre

/-- Witness of C3: three events on a server whose channel fails on the second. -/
theorem C3_delegation_failure_aborts_witness :
    ((failingServer 1).PublishBuildToolEventStream
        ⟨[exampleEvent 1, exampleEvent 2, exampleEvent 3], io.EOF⟩).1
      = Outcome.returned (some (error.other "broken build"))
    ∧ acksSent ((failingServer 1).PublishBuildToolEventStream
        ⟨[exampleEvent 1, exampleEvent 2, exampleEvent 3], io.EOF⟩).2 = []
    ∧ (∀ a ∈ [Effect.CloseSend 0 none], a.isCloseSend = true)
    ∧ received [Effect.Connect 0 none, Effect.Recv (some (exampleEvent 1)) none,
          Effect.OpenChannel "inv", Effect.HandleEvent (exampleEvent 1) none,
          Effect.ForwardSend 0 (exampleEvent 1) none, Effect.Recv (some (exampleEvent 2)) none]
        = delegated [Effect.Connect 0 none, Effect.Recv (some (exampleEvent 1)) none,
          Effect.OpenChannel "inv", Effect.HandleEvent (exampleEvent 1) none,
          Effect.ForwardSend 0 (exampleEvent 1) none, Effect.Recv (some (exampleEvent 2)) none]
          ++ [exampleEvent 2]
    ∧ (delegated [Effect.Connect 0 none, Effect.Recv (some (exampleEvent 1)) none,
          Effect.OpenChannel "inv", Effect.HandleEvent (exampleEvent 1) none,
          Effect.ForwardSend 0 (exampleEvent 1) none, Effect.Recv (some (exampleEvent 2)) none]
          ++ [exampleEvent 2])
        <+: [exampleEvent 1, exampleEvent 2, exampleEvent 3] :=
  C3_delegation_failure_aborts (failingServer 1)
    ⟨[exampleEvent 1, exampleEvent 2, exampleEvent 3], io.EOF⟩
    [Effect.Connect 0 none, Effect.Recv (some (exampleEvent 1)) none,
      Effect.OpenChannel "inv", Effect.HandleEvent (exampleEvent 1) none,
      Effect.ForwardSend 0 (exampleEvent 1) none, Effect.Recv (some (exampleEvent 2)) none]
    [Effect.CloseSend 0 none] (exampleEvent 2) (error.other "broken build") (by decide)
